import Mathlib

/-!
Shallow embedding of the conflict-resolution and mapping-serialization engine
of `scripts/utils/build-log.ts` (`createEmojiToIconMapping`).

Modelling conventions:
* JavaScript objects are modelled as association lists `List (String × α)`:
  property insertion order is significant for `Object.keys` / `Object.entries`
  (the keys occurring here are emoji strings, never integer-like, so the JS
  insertion-order rule applies to all of them).
* Runtime JSON values (the manual-override file is parsed with `JSON.parse`
  and accessed without type checks) are modelled by `JValue`.  JavaScript
  truthiness is `JValue.truthy`.  Strict equality `===` on the values that
  actually flow through this program (strings, numbers, and values compared
  with themselves) coincides with structural equality, which is what we use.
* `similarity` is a JSON number, modelled as `Rat`.
* `assignment.filename` is modelled as `Option String`: the TypeScript
  interface declares `string`, but the value comes from `JSON.parse` and the
  code never validates its presence, so the field may be absent (`undefined`)
  at runtime.  `Option.getD`/`fnameVal` translate the resulting JS behavior.
* `Array.prototype.sort` is guaranteed stable by the ECMAScript spec; it is
  modelled by `List.insertionSort`, which is stable for the comparator-induced
  non-strict relation.
-/

namespace EmojiMap

/-- Runtime JSON-ish values as produced by `JSON.parse`, extended with
`jundefined` for the JavaScript `undefined` that appears when an absent property
is read or an absent `filename` is stored into the mapping. -/
inductive JValue where
  | jundefined : JValue
  | jnull : JValue
  | jbool : Bool → JValue
  | jnum : Rat → JValue
  | jstr : String → JValue
  | jarr : List JValue → JValue
  | jobj : List (String × JValue) → JValue
deriving Repr

mutual

/-- Structural equality of runtime values.  For the values this program
compares with `!==` (strings, and a value against itself on the second pass)
structural equality agrees with JavaScript strict equality. -/
def JValue.beq : JValue → JValue → Bool
  | .jundefined, .jundefined => true
  | .jnull, .jnull => true
  | .jbool a, .jbool b => a == b
  | .jnum a, .jnum b => a == b
  | .jstr a, .jstr b => a == b
  | .jarr xs, .jarr ys => JValue.beqArr xs ys
  | .jobj xs, .jobj ys => JValue.beqObj xs ys
  | _, _ => false

/-- Elementwise `JValue.beq` on arrays. -/
def JValue.beqArr : List JValue → List JValue → Bool
  | [], [] => true
  | x :: xs, y :: ys => JValue.beq x y && JValue.beqArr xs ys
  | _, _ => false

/-- Elementwise `JValue.beq` on object field lists. -/
def JValue.beqObj : List (String × JValue) → List (String × JValue) → Bool
  | [], [] => true
  | (k1, v1) :: xs, (k2, v2) :: ys => k1 == k2 && JValue.beq v1 v2 && JValue.beqObj xs ys
  | _, _ => false

end

mutual

theorem JValue.beq_refl : ∀ a : JValue, JValue.beq a a = true
  | .jundefined => rfl
  | .jnull => rfl
  | .jbool a => by simp [JValue.beq]
  | .jnum a => by simp [JValue.beq]
  | .jstr a => by simp [JValue.beq]
  | .jarr xs => by simp [JValue.beq, JValue.beqArr_refl xs]
  | .jobj xs => by simp [JValue.beq, JValue.beqObj_refl xs]

theorem JValue.beqArr_refl : ∀ xs : List JValue, JValue.beqArr xs xs = true
  | [] => rfl
  | x :: xs => by simp [JValue.beqArr, JValue.beq_refl x, JValue.beqArr_refl xs]

theorem JValue.beqObj_refl : ∀ xs : List (String × JValue), JValue.beqObj xs xs = true
  | [] => rfl
  | (k, v) :: xs => by simp [JValue.beqObj, JValue.beq_refl v, JValue.beqObj_refl xs]

end

mutual

theorem JValue.eq_of_beq : ∀ a b : JValue, JValue.beq a b = true → a = b
  | .jundefined, b, h => by cases b <;> simp_all [JValue.beq]
  | .jnull, b, h => by cases b <;> simp_all [JValue.beq]
  | .jbool a, b, h => by cases b <;> simp_all [JValue.beq]
  | .jnum a, b, h => by cases b <;> simp_all [JValue.beq]
  | .jstr a, b, h => by cases b <;> simp_all [JValue.beq]
  | .jarr xs, b, h => by
    cases b <;> simp_all [JValue.beq]
    exact JValue.eqArr_of_beqArr xs _ h
  | .jobj xs, b, h => by
    cases b <;> simp_all [JValue.beq]
    exact JValue.eqObj_of_beqObj xs _ h

theorem JValue.eqArr_of_beqArr : ∀ xs ys : List JValue, JValue.beqArr xs ys = true → xs = ys
  | [], ys, h => by cases ys <;> simp_all [JValue.beqArr]
  | x :: xs, ys, h => by
    cases ys with
    | nil => simp [JValue.beqArr] at h
    | cons y ys =>
      simp only [JValue.beqArr, Bool.and_eq_true] at h
      rw [JValue.eq_of_beq x y h.1, JValue.eqArr_of_beqArr xs ys h.2]

theorem JValue.eqObj_of_beqObj :
    ∀ xs ys : List (String × JValue), JValue.beqObj xs ys = true → xs = ys
  | [], ys, h => by cases ys <;> simp_all [JValue.beqObj]
  | (k1, v1) :: xs, ys, h => by
    cases ys with
    | nil => simp [JValue.beqObj] at h
    | cons kv ys =>
      obtain ⟨k2, v2⟩ := kv
      simp only [JValue.beqObj, Bool.and_eq_true, beq_iff_eq] at h
      rw [h.1.1, JValue.eq_of_beq v1 v2 h.1.2, JValue.eqObj_of_beqObj xs ys h.2]

end

instance : DecidableEq JValue := fun a b =>
  decidable_of_iff (JValue.beq a b = true)
    ⟨JValue.eq_of_beq a b, fun h => h ▸ JValue.beq_refl a⟩

namespace JValue

/-- JavaScript truthiness of a value (`NaN` is not representable in JSON, so
numbers are falsy exactly when they are `0`). -/
def truthy : JValue → Bool
  | .jundefined => false
  | .jnull => false
  | .jbool b => b
  | .jnum q => decide (q ≠ 0)
  | .jstr s => decide (s ≠ "")
  | .jarr _ => true
  | .jobj _ => true

/-- JavaScript `typeof x === "object"` (true for objects, arrays and `null`). -/
def isObjType : JValue → Bool
  | .jobj _ => true
  | .jarr _ => true
  | .jnull => true
  | _ => false

end JValue

/-- Reading a property of a JavaScript object (`m[k]` yields `undefined` for
an absent key); modelled on association lists. -/
def objGet (m : List (String × α)) (k : String) : Option α :=
  match m.find? (fun kv => kv.1 == k) with
  | some kv => some kv.2
  | none => none

/-- Writing a property of a JavaScript object: an existing key is updated in
place (its position is kept), a new key is appended at the end. -/
def objSet (m : List (String × α)) (k : String) (v : α) : List (String × α) :=
  if (m.find? (fun kv => kv.1 == k)).isSome then
    m.map (fun kv => if kv.1 == k then (kv.1, v) else kv)
  else m ++ [(k, v)]

/-- Keys of a JavaScript object, in insertion order (`Object.keys`). -/
def objKeys (m : List (String × α)) : List String := m.map Prod.fst

/-- One element of the `assignments` array of `emoji-assignments.json`
(interface `Assignment` in the source; `filename` may be absent at runtime). -/
structure Assignment where
  filename : Option String
  name : String
  metaphor : List String
  emoji : String
  subEmoji : String
  alternativeEmojis : List String
  similarity : Rat
deriving DecidableEq, Repr

/-- Interface `ConflictCandidate` of the source: one claim on one emoji key. -/
structure Candidate where
  filename : Option String
  similarity : Rat
  isPrimary : Bool
  altIndex : Option Nat
deriving DecidableEq, Repr

/-- The `mappings` list built for one assignment in the collection loop:
the primary emoji (if truthy), plus the `emoji + subEmoji` combination when
`subEmoji` is truthy and nonblank after trimming.  The alternative-emoji
branch is commented out in the source, so no non-primary mapping is derived. -/
def deriveMappings (a : Assignment) : List (String × Bool × Option Nat) :=
  (if a.emoji ≠ "" then [(a.emoji, true, none)] else []) ++
    (if a.emoji ≠ "" ∧ a.subEmoji ≠ "" ∧ a.subEmoji.trim ≠ "" then
      [(a.emoji ++ a.subEmoji, true, none)]
    else [])

/-- `if (!conflicts[k]) conflicts[k] = []; conflicts[k].push(c)` from the
collection loop: append the candidate to the conflict set of its key,
creating the key at the end of the object if it is new. -/
def pushCandidate (m : List (String × List Candidate)) (k : String) (c : Candidate) :
    List (String × List Candidate) :=
  if (m.find? (fun kv => kv.1 == k)).isSome then
    m.map (fun kv => if kv.1 == k then (kv.1, kv.2 ++ [c]) else kv)
  else m ++ [(k, [c])]

/-- The candidate-collection pass (the `for (const assignment of
assignments.assignments)` loop): builds the `conflicts` object.  The loop
performs no validation of `assignment.filename`. -/
def collectConflicts (assignments : List Assignment) : List (String × List Candidate) :=
  assignments.foldl
    (fun conflicts a =>
      (deriveMappings a).foldl
        (fun cf m => pushCandidate cf m.1 ⟨a.filename, a.similarity, m.2.1, m.2.2⟩)
        conflicts)
    []

/-- The `primaryMappings` counter of the collection loop. -/
def primaryMappingsCount (assignments : List Assignment) : Nat :=
  assignments.foldl (fun n a => n + (deriveMappings a).length) 0

/-- Comparator `(a, b) => b.similarity - a.similarity` of the primary-conflict
sort, as the induced non-strict relation (descending by similarity). -/
def descBySim (a b : Candidate) : Prop := b.similarity ≤ a.similarity

instance : DecidableRel descBySim :=
  fun a b => inferInstanceAs (Decidable (b.similarity ≤ a.similarity))

instance : IsTotal Candidate descBySim :=
  ⟨fun a b => (le_total b.similarity a.similarity).imp id id⟩

instance : IsTrans Candidate descBySim :=
  ⟨fun _ _ _ h1 h2 => le_trans h2 h1⟩

/-- Comparator `(a, b) => (a.altIndex || 0) - (b.altIndex || 0)` of the
alternative-only sort (`undefined` and `0` both read as `0`). -/
def ascByAlt (a b : Candidate) : Prop := a.altIndex.getD 0 ≤ b.altIndex.getD 0

instance : DecidableRel ascByAlt :=
  fun a b => inferInstanceAs (Decidable (a.altIndex.getD 0 ≤ b.altIndex.getD 0))

instance : IsTotal Candidate ascByAlt :=
  ⟨fun a b => (le_total (a.altIndex.getD 0) (b.altIndex.getD 0)).imp id id⟩

instance : IsTrans Candidate ascByAlt :=
  ⟨fun _ _ _ h1 h2 => le_trans h1 h2⟩

/-- JavaScript `undefined`-aware conversion of a winner filename into the
value stored in the mapping object. -/
def fnameVal : Option String → JValue
  | some s => .jstr s
  | none => .jundefined

/-- The conflict-resolution step for one key (body of the
`for (const [emojiKey, candidates] of Object.entries(conflicts))` loop):
returns the winner and, when the key had several primary candidates, the
sorted primary list recorded as the tie entry.  `none` models the
`candidates[0]` crash on an empty list, which is unreachable for
collector-built conflict sets. -/
def resolveKey (candidates : List Candidate) : Option (Candidate × Option (List Candidate)) :=
  if 1 < candidates.length then
    let primaryCandidates := candidates.filter (fun c => c.isPrimary)
    let alternativeCandidates := candidates.filter (fun c => !c.isPrimary)
    if 0 < primaryCandidates.length then
      if 1 < primaryCandidates.length then
        match List.insertionSort descBySim primaryCandidates with
        | [] => none
        | w :: rest => some (w, some (w :: rest))
      else
        match primaryCandidates with
        | [] => none
        | w :: _ => some (w, none)
    else
      match List.insertionSort ascByAlt alternativeCandidates with
      | [] => none
      | w :: _ => some (w, none)
  else
    match candidates with
    | [] => none
    | c :: _ => some (c, none)

/-- The whole conflict-resolution loop: builds `emojiToIcon` and `emojiTies`
from the collected conflict sets. -/
def resolveAll (conflicts : List (String × List Candidate)) :
    List (String × JValue) × List (String × List JValue) :=
  conflicts.foldl
    (fun acc kv =>
      match resolveKey kv.2 with
      | none => acc
      | some (w, tie) =>
        (objSet acc.1 kv.1 (fnameVal w.filename),
         match tie with
         | some sorted => objSet acc.2 kv.1 (sorted.map (fun c => fnameVal c.filename))
         | none => acc.2))
    ([], [])

/-- Property read `v.k` on a runtime value: `undefined` when the value is not
an object or lacks the field.  (Reading a property of `null` throws in
JavaScript; no claim below reads a property of `null`.) -/
def JValue.getProp (v : JValue) (k : String) : JValue :=
  match v with
  | .jobj fields =>
    match objGet fields k with
    | some x => x
    | none => .jundefined
  | _ => .jundefined

/-- `Object.entries` of a runtime value: the fields of an object in insertion
order, the index-keyed elements of an array, nothing for other values. -/
def JValue.entriesOf : JValue → List (String × JValue)
  | .jobj fields => fields
  | .jarr xs => xs.enum.map (fun p => (toString p.1, p.2))
  | _ => []

/-- Body of the override loop for one entry `emoji → tieArray` of the manual
tie-breaking object, threading the `manualOverrides` counter:
`if (Array.isArray(tieArray) && tieArray.length > 0)` take the first element
as winner and replace the current mapping value when it is truthy and differs. -/
def applyOverrideEntry (acc : List (String × JValue) × Nat) (k : String) (v : JValue) :
    List (String × JValue) × Nat :=
  match v with
  | .jarr (w :: _) =>
    match objGet acc.1 k with
    | some cur =>
      if cur.truthy && !(JValue.beq cur w) then (objSet acc.1 k w, acc.2 + 1) else acc
    | none => acc
  | _ => acc

/-- The manual-override application step applied to a parsed override file:
if `manualTies.ties` is truthy and of object type, fold the override loop
over its entries (second component is the `manualOverrides` counter);
otherwise leave the mapping alone (the source then logs, via `logInfo`,
"Manual tie-breaking file found but has invalid format").  The returned
`Bool` is `true` exactly on the valid-format branch. -/
def applyManualTies (m : List (String × JValue)) (file : JValue) :
    (List (String × JValue) × Nat) × Bool :=
  let ties := file.getProp "ties"
  if ties.truthy && ties.isObjType then
    (ties.entriesOf.foldl (fun acc kv => applyOverrideEntry acc kv.1 kv.2) (m, 0), true)
  else ((m, 0), false)

/-- The whole override stage: an absent file (`ENOENT`) leaves the mapping
unchanged with zero overrides applied. -/
def overridesStage (m : List (String × JValue)) (file : Option JValue) :
    List (String × JValue) × Nat :=
  match file with
  | none => (m, 0)
  | some f => (applyManualTies m f).1

/-- The forced winner carried by one override entry: the head of its value
when that value is a nonempty array, nothing otherwise. -/
def entryWinner : JValue → Option JValue
  | .jarr (w :: _) => some w
  | _ => none

/-- Effect of one override winner on the current value at a key. -/
def stepVal (cur : Option JValue) (w : JValue) : Option JValue :=
  match cur with
  | some c => if c.truthy && !(JValue.beq c w) then some w else some c
  | none => none

/-- Truthiness of a lookup result (`undefined` for an absent key is falsy). -/
def truthyOpt : Option JValue → Bool
  | some c => c.truthy
  | none => false

/-- Comparator `(a, b) => a.localeCompare(b)` applied to mapping values,
parameterized by the locale comparison `lc` on strings (an external,
environment-supplied function).  Mapping values are strings whenever every
assignment carries a filename; other values would make `localeCompare`
throw, which no claim below exercises. -/
def valCompare (lc : String → String → Int) : JValue → JValue → Int
  | .jstr a, .jstr b => lc a b
  | _, _ => 0

/-- Number of matches of the emoji regex
`\p{Emoji_Modifier_Base}\p{Emoji_Modifier}?|\p{Emoji_Presentation}|\p{Emoji}\uFE0F`
(global, unicode) in a list of code points, parameterized by the four Unicode
character classes (external data).  The scan tries the alternatives in order
at each position and advances one code point on failure, as the JS regex
engine does with the `u` flag. -/
def countEmojiUnits (isEMB isEM isEP isEmo : Char → Bool) : List Char → Nat
  | [] => 0
  | [c] => if isEMB c || isEP c then 1 else 0
  | c :: d :: rest =>
    if isEMB c then
      if isEM d then countEmojiUnits isEMB isEM isEP isEmo rest + 1
      else countEmojiUnits isEMB isEM isEP isEmo (d :: rest) + 1
    else if isEP c then countEmojiUnits isEMB isEM isEP isEmo (d :: rest) + 1
    else if isEmo c && d == '\uFE0F' then countEmojiUnits isEMB isEM isEP isEmo rest + 1
    else countEmojiUnits isEMB isEM isEP isEmo (d :: rest)

/-- Comparator of the by-emoji-key sort: emoji-unit count ascending, then
locale comparison. -/
def emojiKeyCompare (cnt : String → Nat) (lc : String → String → Int) (a b : String) : Int :=
  if cnt a ≠ cnt b then (cnt a : Int) - (cnt b : Int) else lc a b

/-- JavaScript `String.prototype.length`: the number of UTF-16 code units. -/
def utf16Length (s : String) : Nat :=
  s.data.foldl (fun n c => n + if c.toNat ≥ 65536 then 2 else 1) 0

/-- Comparator of the tie-record sort: raw `.length` ascending, then locale
comparison. -/
def tieKeyCompare (lc : String → String → Int) (a b : String) : Int :=
  if utf16Length a ≠ utf16Length b then (utf16Length a : Int) - (utf16Length b : Int)
  else lc a b

/-- Shape of `emoji-assignments.json`. -/
structure EmojiAssignments where
  generated : String
  total : Nat
  assignments : List Assignment
deriving DecidableEq, Repr

/-- Shape of `emoji-to-icon.json` and `emoji-to-icon-by-emoji.json`. -/
structure MappingArtifact where
  generated : String
  totalMappings : Nat
  primaryMappings : Nat
  alternativeMappings : Nat
  manualOverrides : Nat
  note : String
  mappings : List (String × JValue)
deriving DecidableEq, Repr

/-- Shape of `emoji-ties.json`. -/
structure TiesArtifact where
  generated : String
  totalTies : Nat
  note : String
  ties : List (String × List JValue)
deriving DecidableEq, Repr

/-- The three output artifacts of one run. -/
structure PipelineOutput where
  emojiToIcon : MappingArtifact
  emojiToIconByEmoji : MappingArtifact
  emojiTies : TiesArtifact
deriving DecidableEq, Repr

def byIconNote : String :=
  "Sorted alphabetically by icon name (value). Manual overrides from emoji-ties-manually-broken.json are applied if the file exists."

def byEmojiNote : String :=
  "Sorted alphabetically by emoji key. Manual overrides from emoji-ties-manually-broken.json are applied if the file exists."

def tiesNote : String :=
  "Only contains primary emoji conflicts (primary vs primary). Alternative emoji conflicts are not included. Sorted by emoji length (shorter first), then alphabetically within each length group. To manually override tie-breaking, copy this file to emoji-ties-manually-broken.json and reorder the arrays - the first item in each array will be used as the winner."

/-- The whole `createEmojiToIconMapping` pipeline, from the parsed input
artifact and optional parsed override file to the three output artifacts.
`now` is the `new Date().toISOString()` timestamp of the run; `lc` is
`localeCompare`; the four character classes feed the emoji regex.  All are
environment inputs of the run. -/
def createEmojiToIconMapping
    (isEMB isEM isEP isEmo : Char → Bool) (lc : String → String → Int)
    (input : EmojiAssignments) (overrideFile : Option JValue) (now : String) :
    PipelineOutput :=
  let conflicts := collectConflicts input.assignments
  let resolved := resolveAll conflicts
  let emojiTies := resolved.2
  let afterOverride := overridesStage resolved.1 overrideFile
  let emojiToIcon := afterOverride.1
  let manualOverrides := afterOverride.2
  let sortedEmojiEntries :=
    List.insertionSort (fun p q : String × JValue => valCompare lc p.2 q.2 ≤ 0) emojiToIcon
  let cnt := fun s : String => countEmojiUnits isEMB isEM isEP isEmo s.data
  let sortedEmojiKeys :=
    List.insertionSort (fun a b => emojiKeyCompare cnt lc a b ≤ 0) (objKeys emojiToIcon)
  let sortedEmojiToIconByEmoji :=
    sortedEmojiKeys.filterMap (fun k => (objGet emojiToIcon k).map (fun v => (k, v)))
  let sortedTieKeys :=
    List.insertionSort (fun a b => tieKeyCompare lc a b ≤ 0) (objKeys emojiTies)
  let sortedEmojiTies :=
    sortedTieKeys.filterMap (fun k => (objGet emojiTies k).map (fun v => (k, v)))
  { emojiToIcon :=
      { generated := now
        totalMappings := (objKeys emojiToIcon).length
        primaryMappings := primaryMappingsCount input.assignments
        alternativeMappings := 0
        manualOverrides := manualOverrides
        note := byIconNote
        mappings := sortedEmojiEntries }
    emojiToIconByEmoji :=
      { generated := now
        totalMappings := (objKeys emojiToIcon).length
        primaryMappings := primaryMappingsCount input.assignments
        alternativeMappings := 0
        manualOverrides := manualOverrides
        note := byEmojiNote
        mappings := sortedEmojiToIconByEmoji }
    emojiTies :=
      { generated := now
        totalTies := (objKeys emojiTies).length
        note := tiesNote
        ties := sortedEmojiTies } }

/-- The content of a run's three artifacts with the generation timestamps
removed: everything the pipeline writes except the `generated` fields. -/
def contentOf (o : PipelineOutput) :
    (Nat × Nat × Nat × Nat × String × List (String × JValue)) ×
    (Nat × Nat × Nat × Nat × String × List (String × JValue)) ×
    (Nat × String × List (String × List JValue)) :=
  ((o.emojiToIcon.totalMappings, o.emojiToIcon.primaryMappings,
    o.emojiToIcon.alternativeMappings, o.emojiToIcon.manualOverrides,
    o.emojiToIcon.note, o.emojiToIcon.mappings),
   (o.emojiToIconByEmoji.totalMappings, o.emojiToIconByEmoji.primaryMappings,
    o.emojiToIconByEmoji.alternativeMappings, o.emojiToIconByEmoji.manualOverrides,
    o.emojiToIconByEmoji.note, o.emojiToIconByEmoji.mappings),
   (o.emojiTies.totalTies, o.emojiTies.note, o.emojiTies.ties))

/-- Sample Unicode character classes and locale comparison used to exercise
the parameterized serializer on concrete inputs. -/
def sampleEMB : Char → Bool := fun c => c == 'a'

def sampleEM : Char → Bool := fun c => c == 'b'

def sampleEP : Char → Bool := fun c => c == 'p'

def sampleEmo : Char → Bool := fun c => c == 'c'

def sampleLC : String → String → Int := fun _ _ => 0

end EmojiMap

namespace EmojiMap

example :
    resolveAll (collectConflicts
      [⟨some "add", "add", [], "➕", "", [], mkRat 9 10⟩,
       ⟨some "plus", "plus", [], "➕", "", [], mkRat 8 10⟩]) =
    ([("➕", .jstr "add")], [("➕", [.jstr "add", .jstr "plus"])]) := rfl

example :
    resolveAll (collectConflicts [⟨some "circle", "circle", [], "⭕", "", [], mkRat 7 10⟩]) =
    ([("⭕", .jstr "circle")], []) := rfl

/-! ### Association-list lemmas -/

theorem objGet_nil {α : Type _} (k : String) : objGet ([] : List (String × α)) k = none := rfl

theorem objGet_cons {α : Type _} (k' k : String) (v : α) (m : List (String × α)) :
    objGet ((k', v) :: m) k = if k' = k then some v else objGet m k := by
  by_cases h : k' = k
  · simp [objGet, List.find?, h]
  · have hb : (k' == k) = false := by simp [h]
    simp [objGet, List.find?, hb, h]

theorem objGet_append {α : Type _} (m₁ m₂ : List (String × α)) (k : String) :
    objGet (m₁ ++ m₂) k =
      match objGet m₁ k with
      | some v => some v
      | none => objGet m₂ k := by
  induction m₁ with
  | nil => rfl
  | cons kv t ih =>
    obtain ⟨k', v⟩ := kv
    rw [List.cons_append, objGet_cons, objGet_cons]
    by_cases h : k' = k <;> simp [h, ih]

theorem objGet_isSome_iff {α : Type _} (m : List (String × α)) (k : String) :
    (objGet m k).isSome ↔ k ∈ objKeys m := by
  induction m with
  | nil => simp [objGet, objKeys]
  | cons kv t ih =>
    obtain ⟨k', v⟩ := kv
    rw [objGet_cons]
    by_cases h : k' = k
    · simp [objKeys, h]
    · simp only [if_neg h, objKeys, List.map_cons, List.mem_cons]
      rw [show (objKeys t = List.map Prod.fst t) from rfl] at ih
      rw [ih]
      constructor
      · exact fun hm => Or.inr hm
      · rintro (rfl | hm)
        · exact absurd rfl h
        · exact hm

theorem objGet_eq_none_of_not_mem {α : Type _} {m : List (String × α)} {k : String}
    (h : k ∉ objKeys m) : objGet m k = none := by
  cases ho : objGet m k with
  | none => rfl
  | some v => exact absurd ((objGet_isSome_iff m k).mp (by simp [ho])) h

theorem mem_of_objGet_eq_some {α : Type _} {m : List (String × α)} {k : String} {v : α}
    (h : objGet m k = some v) : (k, v) ∈ m := by
  induction m with
  | nil => simp [objGet] at h
  | cons kv t ih =>
    obtain ⟨k', v'⟩ := kv
    rw [objGet_cons] at h
    by_cases hk : k' = k
    · simp [hk] at h
      simp [hk, h]
    · simp [hk] at h
      exact List.mem_cons_of_mem _ (ih h)

theorem objGet_update {α : Type _} (m : List (String × α)) (k : String) (v : α) :
    objGet (m.map (fun kv => if kv.1 == k then (kv.1, v) else kv)) k =
      (objGet m k).map (fun _ => v) := by
  induction m with
  | nil => rfl
  | cons kv t ih =>
    obtain ⟨k', v'⟩ := kv
    by_cases h : k' = k
    · have hb : (k' == k) = true := by simp [h]
      simp only [List.map_cons, hb, if_true]
      rw [objGet_cons, objGet_cons, if_pos h, if_pos h]
      rfl
    · have hb : (k' == k) = false := by simp [h]
      simp only [List.map_cons, hb, Bool.false_eq_true, if_false]
      rw [objGet_cons, objGet_cons, if_neg h, if_neg h, ih]

theorem objGet_update_ne {α : Type _} (m : List (String × α)) {k k' : String} (v : α)
    (h : k ≠ k') :
    objGet (m.map (fun kv => if kv.1 == k then (kv.1, v) else kv)) k' = objGet m k' := by
  induction m with
  | nil => rfl
  | cons kv t ih =>
    obtain ⟨a, b⟩ := kv
    by_cases ha : a = k
    · have hb : (a == k) = true := by simp [ha]
      simp only [List.map_cons, hb, if_true]
      rw [objGet_cons, objGet_cons, if_neg (ha ▸ h : a ≠ k'), if_neg (ha ▸ h : a ≠ k'), ih]
    · have hb : (a == k) = false := by simp [ha]
      simp only [List.map_cons, hb, Bool.false_eq_true, if_false]
      rw [objGet_cons, objGet_cons, ih]

theorem objSet_of_absent {α : Type _} {m : List (String × α)} {k : String} (v : α)
    (h : objGet m k = none) : objSet m k v = m ++ [(k, v)] := by
  have hf : (m.find? (fun kv => kv.1 == k)).isSome = false := by
    cases hfind : m.find? (fun kv => kv.1 == k) with
    | none => rfl
    | some kv => simp [objGet, hfind] at h
  simp [objSet, hf]

theorem objGet_isSome_eq_find {α : Type _} (m : List (String × α)) (k : String) :
    (objGet m k).isSome = (m.find? (fun kv => kv.1 == k)).isSome := by
  cases h : m.find? (fun kv => kv.1 == k) <;> simp [objGet, h]

theorem objSet_of_present {α : Type _} {m : List (String × α)} {k : String} (v : α)
    (h : (objGet m k).isSome) :
    objSet m k v = m.map (fun kv => if kv.1 == k then (kv.1, v) else kv) := by
  rw [objGet_isSome_eq_find] at h
  simp [objSet, h]

theorem objGet_objSet_self {α : Type _} (m : List (String × α)) (k : String) (v : α) :
    objGet (objSet m k v) k = some v := by
  cases h : objGet m k with
  | none => rw [objSet_of_absent v h, objGet_append, h, objGet_cons]; simp
  | some w =>
    rw [objSet_of_present v (by simp [h]), objGet_update, h]
    rfl

theorem objGet_objSet_ne {α : Type _} (m : List (String × α)) {k k' : String} (v : α)
    (h : k ≠ k') : objGet (objSet m k v) k' = objGet m k' := by
  cases ho : objGet m k with
  | none =>
    rw [objSet_of_absent v ho, objGet_append]
    cases hg : objGet m k' with
    | none => simp [objGet_cons, h, objGet]
    | some w => simp
  | some w => rw [objSet_of_present v (by simp [ho]), objGet_update_ne m v h]

theorem objKeys_append {α : Type _} (m₁ m₂ : List (String × α)) :
    objKeys (m₁ ++ m₂) = objKeys m₁ ++ objKeys m₂ := by
  simp [objKeys]

theorem objKeys_objSet_of_present {α : Type _} {m : List (String × α)} {k : String} (v : α)
    (h : (objGet m k).isSome) : objKeys (objSet m k v) = objKeys m := by
  rw [objSet_of_present v h]
  show List.map Prod.fst _ = _
  rw [List.map_map]
  have hf : (Prod.fst ∘ fun kv : String × α => if kv.1 == k then (kv.1, v) else kv) =
      (Prod.fst : String × α → String) := by
    funext kv
    by_cases hk : kv.1 = k <;> simp [hk]
  rw [hf]
  rfl

theorem objKeys_nodup_objSet {α : Type _} {m : List (String × α)} {k : String} (v : α)
    (h : (objKeys m).Nodup) : (objKeys (objSet m k v)).Nodup := by
  cases ho : objGet m k with
  | none =>
    rw [objSet_of_absent v ho, objKeys_append]
    have hk : k ∉ objKeys m := fun hm => by
      have hs := (objGet_isSome_iff m k).mpr hm
      rw [ho] at hs
      simp at hs
    rw [List.nodup_append]
    refine ⟨h, List.nodup_singleton k, ?_⟩
    intro a ha hb
    simp only [objKeys, List.map_cons, List.map_nil, List.mem_singleton] at hb
    subst hb
    exact hk ha
  | some w => rw [objKeys_objSet_of_present v (by simp [ho])]; exact h

/-! ### Stable-sort lemmas -/

/-- Specification-side reading of "the primary candidate with the highest
confidence, equal confidences broken in favor of the earlier-inserted
candidate": scan from the left, keeping the current candidate unless a
strictly more similar one appears. -/
def firstMaxBySim : List Candidate → Option Candidate
  | [] => none
  | c :: l =>
    some
      (match firstMaxBySim l with
       | none => c
       | some m => if m.similarity ≤ c.similarity then c else m)

theorem head?_insertionSort_descBySim (l : List Candidate) :
    (List.insertionSort descBySim l).head? = firstMaxBySim l := by
  induction l with
  | nil => rfl
  | cons c l ih =>
    show (List.orderedInsert descBySim c (List.insertionSort descBySim l)).head? = _
    cases hs : List.insertionSort descBySim l with
    | nil =>
      rw [hs] at ih
      simp only [List.head?] at ih
      simp [List.orderedInsert, firstMaxBySim, ← ih]
    | cons b t =>
      rw [hs] at ih
      simp only [List.head?] at ih
      rw [List.orderedInsert]
      show _ = firstMaxBySim (c :: l)
      rw [firstMaxBySim, ← ih]
      by_cases h : descBySim c b
      · rw [if_pos h]
        have h' : b.similarity ≤ c.similarity := h
        simp [List.head?, if_pos h']
      · rw [if_neg h]
        have h' : ¬ b.similarity ≤ c.similarity := h
        simp [List.head?, if_neg h']

theorem firstMaxBySim_mem : ∀ {l : List Candidate} {m : Candidate},
    firstMaxBySim l = some m → m ∈ l
  | [], m, h => by simp [firstMaxBySim] at h
  | c :: l, m, h => by
    rw [firstMaxBySim] at h
    cases hl : firstMaxBySim l with
    | none =>
      rw [hl] at h
      simp only [Option.some.injEq] at h
      simp [← h]
    | some m' =>
      rw [hl] at h
      simp only [Option.some.injEq] at h
      by_cases hc : m'.similarity ≤ c.similarity
      · rw [if_pos hc] at h
        simp [← h]
      · rw [if_neg hc] at h
        exact List.mem_cons_of_mem _ (h ▸ firstMaxBySim_mem hl)

theorem firstMaxBySim_max : ∀ {l : List Candidate} {m : Candidate},
    firstMaxBySim l = some m → ∀ c ∈ l, c.similarity ≤ m.similarity
  | [], m, h => by simp [firstMaxBySim] at h
  | c :: l, m, h => by
    rw [firstMaxBySim] at h
    cases hl : firstMaxBySim l with
    | none =>
      rw [hl] at h
      simp only [Option.some.injEq] at h
      intro d hd
      rcases List.mem_cons.mp hd with rfl | hd
      · exact h ▸ le_refl _
      · cases l with
        | nil => simp at hd
        | cons e t => simp [firstMaxBySim] at hl
    | some m' =>
      rw [hl] at h
      simp only [Option.some.injEq] at h
      intro d hd
      rcases List.mem_cons.mp hd with rfl | hd
      · by_cases hc : m'.similarity ≤ d.similarity
        · rw [if_pos hc] at h
          exact h ▸ le_refl _
        · rw [if_neg hc] at h
          exact h ▸ le_of_not_le hc
      · have hdm' := firstMaxBySim_max hl d hd
        by_cases hc : m'.similarity ≤ c.similarity
        · rw [if_pos hc] at h
          exact h ▸ le_trans hdm' hc
        · rw [if_neg hc] at h
          exact h ▸ hdm'

theorem filter_simEq_orderedInsert (q : Rat) (a : Candidate) : ∀ l : List Candidate,
    (List.orderedInsert descBySim a l).filter (fun c => decide (c.similarity = q)) =
      if a.similarity = q then a :: l.filter (fun c => decide (c.similarity = q))
      else l.filter (fun c => decide (c.similarity = q))
  | [] => by
    by_cases h : a.similarity = q <;> simp [List.orderedInsert, List.filter, h]
  | b :: t => by
    rw [List.orderedInsert]
    by_cases hr : descBySim a b
    · rw [if_pos hr]
      by_cases h : a.similarity = q <;> simp [List.filter_cons, h]
    · rw [if_neg hr]
      have hr' : a.similarity < b.similarity := lt_of_not_le hr
      by_cases hb : b.similarity = q
      · by_cases h : a.similarity = q
        · exact absurd hr' (by rw [h, hb]; exact lt_irrefl q)
        · simp [List.filter_cons, hb, h, filter_simEq_orderedInsert q a t]
      · by_cases h : a.similarity = q <;>
          simp [List.filter_cons, hb, h, filter_simEq_orderedInsert q a t]

theorem filter_simEq_insertionSort (q : Rat) : ∀ l : List Candidate,
    (List.insertionSort descBySim l).filter (fun c => decide (c.similarity = q)) =
      l.filter (fun c => decide (c.similarity = q))
  | [] => rfl
  | a :: l => by
    show (List.orderedInsert descBySim a (List.insertionSort descBySim l)).filter _ = _
    rw [filter_simEq_orderedInsert, filter_simEq_insertionSort q l]
    by_cases h : a.similarity = q <;> simp [List.filter_cons, h]

/-- Specification-side characterization of a stable descending sort by
similarity: a permutation, sorted descending, in which candidates of equal
similarity keep their original relative order. -/
def IsStableDescSimSort (orig sorted : List Candidate) : Prop :=
  sorted.Perm orig ∧ sorted.Sorted descBySim ∧
    ∀ q : Rat, sorted.filter (fun c => decide (c.similarity = q)) =
      orig.filter (fun c => decide (c.similarity = q))

theorem insertionSort_isStableDescSimSort (l : List Candidate) :
    IsStableDescSimSort l (List.insertionSort descBySim l) :=
  ⟨List.perm_insertionSort descBySim l, List.sorted_insertionSort descBySim l,
    fun q => filter_simEq_insertionSort q l⟩

theorem head_minimal_ascByAlt {l : List Candidate} {w : Candidate} {t : List Candidate}
    (h : List.insertionSort ascByAlt l = w :: t) :
    ∀ c ∈ l, w.altIndex.getD 0 ≤ c.altIndex.getD 0 := by
  intro c hc
  have hmem : c ∈ w :: t := h ▸ (List.perm_insertionSort ascByAlt l).mem_iff.mpr hc
  rcases List.mem_cons.mp hmem with rfl | hmem
  · exact le_refl _
  · have hsorted : List.Sorted ascByAlt (w :: t) := h ▸ List.sorted_insertionSort ascByAlt l
    exact List.rel_of_sorted_cons hsorted c hmem

/-! ### resolveKey branch lemmas -/

theorem resolveKey_nil : resolveKey [] = none := rfl

theorem resolveKey_short {c : Candidate} {t : List Candidate} (h : ¬ 1 < (c :: t).length) :
    resolveKey (c :: t) = some (c, none) := by
  unfold resolveKey
  rw [if_neg h]

theorem resolveKey_multi_primary {cs : List Candidate}
    (hlen : 1 < cs.length) (h2 : 1 < (cs.filter (fun c => c.isPrimary)).length) :
    ∃ w rest, List.insertionSort descBySim (cs.filter (fun c => c.isPrimary)) = w :: rest ∧
      resolveKey cs = some (w, some (w :: rest)) := by
  have hpos : 0 < (cs.filter (fun c => c.isPrimary)).length := lt_trans Nat.zero_lt_one h2
  cases hsort : List.insertionSort descBySim (cs.filter (fun c => c.isPrimary)) with
  | nil =>
    have hl := (List.perm_insertionSort descBySim (cs.filter (fun c => c.isPrimary))).length_eq
    rw [hsort] at hl
    simp at hl
    omega
  | cons w rest =>
    refine ⟨w, rest, rfl, ?_⟩
    unfold resolveKey
    rw [if_pos hlen]
    simp only [if_pos hpos, if_pos h2, hsort]

theorem resolveKey_single_primary {cs : List Candidate} {w : Candidate}
    (hlen : 1 < cs.length) (h1 : cs.filter (fun c => c.isPrimary) = [w]) :
    resolveKey cs = some (w, none) := by
  unfold resolveKey
  rw [if_pos hlen]
  simp only [h1, List.length_singleton, Nat.lt_irrefl, Nat.zero_lt_one, if_pos, if_neg,
    if_false, if_true]

theorem resolveKey_no_primary {cs : List Candidate}
    (hlen : 1 < cs.length) (h0 : cs.filter (fun c => c.isPrimary) = []) :
    ∃ w rest, List.insertionSort ascByAlt cs = w :: rest ∧ resolveKey cs = some (w, none) := by
  have hall : ∀ c ∈ cs, ¬ (c.isPrimary = true) := by
    intro c hc
    exact fun hp => by simp [List.filter_eq_nil_iff.mp h0 c hc] at hp
  have hA : cs.filter (fun c => !c.isPrimary) = cs := by
    rw [List.filter_eq_self]
    intro c hc
    simp [Bool.not_eq_true] at *
    exact Bool.not_eq_true c.isPrimary ▸ (by simpa using hall c hc)
  cases hsort : List.insertionSort ascByAlt cs with
  | nil =>
    have hl := (List.perm_insertionSort ascByAlt cs).length_eq
    rw [hsort] at hl
    simp at hl
    omega
  | cons w rest =>
    refine ⟨w, rest, rfl, ?_⟩
    unfold resolveKey
    rw [if_pos hlen]
    simp only [h0, List.length_nil, Nat.lt_irrefl, if_neg, if_false, hA, hsort]

theorem resolveKey_isSome {cs : List Candidate} (h : cs ≠ []) : (resolveKey cs).isSome := by
  by_cases hlen : 1 < cs.length
  · by_cases h2 : 1 < (cs.filter (fun c => c.isPrimary)).length
    · obtain ⟨w, rest, _, hr⟩ := resolveKey_multi_primary hlen h2
      simp [hr]
    · cases hP : cs.filter (fun c => c.isPrimary) with
      | nil =>
        obtain ⟨w, rest, _, hr⟩ := resolveKey_no_primary hlen hP
        simp [hr]
      | cons w t =>
        cases t with
        | nil => simp [resolveKey_single_primary hlen hP]
        | cons w' t' => rw [hP] at h2; simp at h2
  · cases cs with
    | nil => exact absurd rfl h
    | cons c t => simp [resolveKey_short hlen]

theorem resolveKey_winner_mem {cs : List Candidate} {w : Candidate} {tie : Option (List Candidate)}
    (h : resolveKey cs = some (w, tie)) : w ∈ cs := by
  by_cases hlen : 1 < cs.length
  · by_cases h2 : 1 < (cs.filter (fun c => c.isPrimary)).length
    · obtain ⟨w', rest, hsort, hr⟩ := resolveKey_multi_primary hlen h2
      rw [hr] at h
      have hw : w' = w := congrArg Prod.fst (Option.some.inj h)
      have hmem : w' ∈ List.insertionSort descBySim (cs.filter (fun c => c.isPrimary)) := by
        rw [hsort]; exact List.mem_cons_self _ _
      exact hw ▸ List.mem_of_mem_filter ((List.perm_insertionSort _ _).mem_iff.mp hmem)
    · cases hP : cs.filter (fun c => c.isPrimary) with
      | nil =>
        obtain ⟨w', rest, hsort, hr⟩ := resolveKey_no_primary hlen hP
        rw [hr] at h
        have hw : w' = w := congrArg Prod.fst (Option.some.inj h)
        have hmem : w' ∈ List.insertionSort ascByAlt cs := by
          rw [hsort]; exact List.mem_cons_self _ _
        exact hw ▸ (List.perm_insertionSort _ _).mem_iff.mp hmem
      | cons p t =>
        cases t with
        | nil =>
          rw [resolveKey_single_primary hlen hP] at h
          have hw : p = w := congrArg Prod.fst (Option.some.inj h)
          exact hw ▸ List.mem_of_mem_filter (hP ▸ List.mem_cons_self p [])
        | cons p' t' => rw [hP] at h2; simp at h2
  · cases cs with
    | nil => simp [resolveKey_nil] at h
    | cons c t =>
      rw [resolveKey_short hlen] at h
      have hw : c = w := congrArg Prod.fst (Option.some.inj h)
      exact hw ▸ List.mem_cons_self _ _

/-! ### Closed form of the resolution loop -/

/-- One step of the resolution loop, on the `(emojiToIcon, emojiTies)`
accumulator. -/
def resolveStep (acc : List (String × JValue) × List (String × List JValue))
    (kv : String × List Candidate) :
    List (String × JValue) × List (String × List JValue) :=
  match resolveKey kv.2 with
  | none => acc
  | some (w, tie) =>
    (objSet acc.1 kv.1 (fnameVal w.filename),
     match tie with
     | some sorted => objSet acc.2 kv.1 (sorted.map (fun c => fnameVal c.filename))
     | none => acc.2)

theorem resolveAll_eq_foldl (conflicts : List (String × List Candidate)) :
    resolveAll conflicts = conflicts.foldl resolveStep ([], []) := rfl

/-- The mapping entry produced for one conflict-set entry. -/
def mappingRow (kv : String × List Candidate) : Option (String × JValue) :=
  (resolveKey kv.2).map (fun p => (kv.1, fnameVal p.1.filename))

/-- The tie entry produced for one conflict-set entry. -/
def tieRow (kv : String × List Candidate) : Option (String × List JValue) :=
  (resolveKey kv.2).bind (fun p =>
    p.2.map (fun sorted => (kv.1, sorted.map (fun c => fnameVal c.filename))))

theorem mappingRow_key {kv : String × List Candidate} {r : String × JValue}
    (h : mappingRow kv = some r) : r.1 = kv.1 := by
  unfold mappingRow at h
  cases hr : resolveKey kv.2 with
  | none => rw [hr] at h; simp at h
  | some p => rw [hr] at h; simp at h; rw [← h]

theorem tieRow_key {kv : String × List Candidate} {r : String × List JValue}
    (h : tieRow kv = some r) : r.1 = kv.1 := by
  unfold tieRow at h
  cases hr : resolveKey kv.2 with
  | none => rw [hr] at h; simp at h
  | some p =>
    obtain ⟨w, tie⟩ := p
    rw [hr] at h
    cases tie with
    | none => exact Option.noConfusion h
    | some sorted =>
      have h' : some (kv.1, sorted.map (fun c => fnameVal c.filename)) = some r := h
      rw [← Option.some.inj h']

theorem foldl_resolveStep_closed :
    ∀ (conflicts : List (String × List Candidate))
      (acc : List (String × JValue) × List (String × List JValue)),
      (∀ kv ∈ conflicts, objGet acc.1 kv.1 = none) →
      (∀ kv ∈ conflicts, objGet acc.2 kv.1 = none) →
      (objKeys conflicts).Nodup →
      conflicts.foldl resolveStep acc =
        (acc.1 ++ conflicts.filterMap mappingRow, acc.2 ++ conflicts.filterMap tieRow)
  | [], acc, _, _, _ => by simp
  | (k, cs) :: rest, acc, h1, h2, hnd => by
    rw [List.foldl_cons]
    have hknd : k ∉ objKeys rest := by
      simp only [objKeys, List.map_cons, List.nodup_cons] at hnd
      exact hnd.1
    have hrest : (objKeys rest).Nodup := by
      simp only [objKeys, List.map_cons, List.nodup_cons] at hnd
      exact hnd.2
    cases hr : resolveKey cs with
    | none =>
      have hstep : resolveStep acc (k, cs) = acc := by simp [resolveStep, hr]
      rw [hstep,
        foldl_resolveStep_closed rest acc
          (fun kv hkv => h1 kv (List.mem_cons_of_mem _ hkv))
          (fun kv hkv => h2 kv (List.mem_cons_of_mem _ hkv)) hrest]
      simp [List.filterMap_cons, mappingRow, tieRow, hr]
    | some p =>
      obtain ⟨w, tie⟩ := p
      have hg1 : objGet acc.1 k = none := h1 (k, cs) (List.mem_cons_self _ _)
      have hg2 : objGet acc.2 k = none := h2 (k, cs) (List.mem_cons_self _ _)
      have hset1 : objSet acc.1 k (fnameVal w.filename) = acc.1 ++ [(k, fnameVal w.filename)] :=
        objSet_of_absent _ hg1
      have hnew1 : ∀ kv ∈ rest, objGet (acc.1 ++ [(k, fnameVal w.filename)]) kv.1 = none := by
        intro kv hkv
        rw [objGet_append, h1 kv (List.mem_cons_of_mem _ hkv)]
        have : k ≠ kv.1 := fun he => hknd (he ▸ (List.mem_map.mpr ⟨kv, hkv, rfl⟩))
        simp [objGet_cons, this, objGet]
      cases tie with
      | none =>
        have hstep : resolveStep acc (k, cs) = (acc.1 ++ [(k, fnameVal w.filename)], acc.2) := by
          simp [resolveStep, hr, hset1]
        rw [hstep,
          foldl_resolveStep_closed rest (acc.1 ++ [(k, fnameVal w.filename)], acc.2) hnew1
            (fun kv hkv => h2 kv (List.mem_cons_of_mem _ hkv)) hrest]
        simp [List.filterMap_cons, mappingRow, tieRow, hr, List.append_assoc]
      | some sorted =>
        have hset2 : objSet acc.2 k (sorted.map (fun c => fnameVal c.filename)) =
            acc.2 ++ [(k, sorted.map (fun c => fnameVal c.filename))] :=
          objSet_of_absent _ hg2
        have hnew2 : ∀ kv ∈ rest,
            objGet (acc.2 ++ [(k, sorted.map (fun c => fnameVal c.filename))]) kv.1 = none := by
          intro kv hkv
          rw [objGet_append, h2 kv (List.mem_cons_of_mem _ hkv)]
          have : k ≠ kv.1 := fun he => hknd (he ▸ (List.mem_map.mpr ⟨kv, hkv, rfl⟩))
          simp [objGet_cons, this, objGet]
        have hstep : resolveStep acc (k, cs) =
            (acc.1 ++ [(k, fnameVal w.filename)],
             acc.2 ++ [(k, sorted.map (fun c => fnameVal c.filename))]) := by
          simp [resolveStep, hr, hset1, hset2]
        rw [hstep,
          foldl_resolveStep_closed rest
            (acc.1 ++ [(k, fnameVal w.filename)],
             acc.2 ++ [(k, sorted.map (fun c => fnameVal c.filename))]) hnew1 hnew2 hrest]
        simp [List.filterMap_cons, mappingRow, tieRow, hr, List.append_assoc]

theorem resolveAll_closed {conflicts : List (String × List Candidate)}
    (hnd : (objKeys conflicts).Nodup) :
    resolveAll conflicts =
      (conflicts.filterMap mappingRow, conflicts.filterMap tieRow) := by
  rw [resolveAll_eq_foldl,
    foldl_resolveStep_closed conflicts ([], []) (fun _ _ => rfl) (fun _ _ => rfl) hnd]
  simp

/-! ### Lookups through `filterMap` with key-preserving rows -/

theorem objGet_filterMap_of_not_mem {β γ : Type _} (f : (String × β) → Option (String × γ))
    (hf : ∀ kv r, f kv = some r → r.1 = kv.1) :
    ∀ (l : List (String × β)) {k : String}, k ∉ objKeys l →
      objGet (l.filterMap f) k = none
  | [], k, _ => rfl
  | kv :: t, k, h => by
    have hkt : k ∉ objKeys t := fun hm => h (List.mem_cons_of_mem _ hm)
    have hkk : kv.1 ≠ k := fun he => h (he ▸ List.mem_cons_self _ _)
    rw [List.filterMap_cons]
    cases hr : f kv with
    | none => exact objGet_filterMap_of_not_mem f hf t hkt
    | some r =>
      rw [objGet_cons, if_neg (by rw [hf kv r hr]; exact hkk)]
      exact objGet_filterMap_of_not_mem f hf t hkt

theorem objGet_filterMap_keyed {β γ : Type _} (f : (String × β) → Option (String × γ))
    (hf : ∀ kv r, f kv = some r → r.1 = kv.1) :
    ∀ (l : List (String × β)), (objKeys l).Nodup →
      ∀ {k : String} {b : β}, objGet l k = some b →
        objGet (l.filterMap f) k = (f (k, b)).map Prod.snd
  | [], _, k, b, h => by simp [objGet] at h
  | (k', b') :: t, hnd, k, b, h => by
    have hknd : k' ∉ objKeys t := by
      simp only [objKeys, List.map_cons, List.nodup_cons] at hnd
      exact hnd.1
    have hndt : (objKeys t).Nodup := by
      simp only [objKeys, List.map_cons, List.nodup_cons] at hnd
      exact hnd.2
    rw [objGet_cons] at h
    by_cases hk : k' = k
    · rw [if_pos hk] at h
      have hb : b' = b := Option.some.inj h
      subst hb
      subst hk
      rw [List.filterMap_cons]
      cases hr : f (k', b') with
      | none =>
        rw [objGet_filterMap_of_not_mem f hf t hknd]
        rfl
      | some r =>
        rw [objGet_cons, if_pos (hf _ r hr)]
        rfl
    · rw [if_neg hk] at h
      rw [List.filterMap_cons]
      cases hr : f (k', b') with
      | none => exact objGet_filterMap_keyed f hf t hndt h
      | some r =>
        rw [objGet_cons, if_neg (by rw [hf _ r hr]; exact hk)]
        exact objGet_filterMap_keyed f hf t hndt h

theorem mem_keys_filterMap {β γ : Type _} (f : (String × β) → Option (String × γ))
    (hf : ∀ kv r, f kv = some r → r.1 = kv.1) :
    ∀ (l : List (String × β)) {k : String},
      k ∈ objKeys (l.filterMap f) → k ∈ objKeys l
  | [], k, h => by simp [objKeys] at h
  | kv :: t, k, h => by
    rw [List.filterMap_cons] at h
    cases hr : f kv with
    | none =>
      rw [hr] at h
      exact List.mem_cons_of_mem _ (mem_keys_filterMap f hf t h)
    | some r =>
      rw [hr] at h
      simp only [objKeys, List.map_cons, List.mem_cons] at h
      rcases h with rfl | h
      · exact (hf kv r hr) ▸ List.mem_cons_self _ _
      · exact List.mem_cons_of_mem _ (mem_keys_filterMap f hf t h)

/-! ### Collector invariants -/

/-- Well-formedness of a collector-built conflict object: JavaScript object
keys are unique, and every conflict set is nonempty. -/
def GoodConflicts (m : List (String × List Candidate)) : Prop :=
  (objKeys m).Nodup ∧ ∀ kv ∈ m, kv.2 ≠ []

theorem pushCandidate_preserves {m : List (String × List Candidate)} {k : String}
    {c : Candidate} (h : GoodConflicts m) : GoodConflicts (pushCandidate m k c) := by
  obtain ⟨hnd, hne⟩ := h
  by_cases hp : (m.find? (fun kv => kv.1 == k)).isSome
  · have heq : pushCandidate m k c =
        m.map (fun kv => if kv.1 == k then (kv.1, kv.2 ++ [c]) else kv) := by
      simp [pushCandidate, hp]
    constructor
    · rw [heq]
      have hkeys : objKeys (m.map (fun kv => if kv.1 == k then (kv.1, kv.2 ++ [c]) else kv)) =
          objKeys m := by
        show List.map Prod.fst _ = _
        rw [List.map_map]
        have hfun : (Prod.fst ∘ fun kv : String × List Candidate =>
            if kv.1 == k then (kv.1, kv.2 ++ [c]) else kv) =
            (Prod.fst : String × List Candidate → String) := by
          funext kv
          by_cases hk : kv.1 = k <;> simp [hk]
        rw [hfun]
        rfl
      rw [hkeys]
      exact hnd
    · rw [heq]
      intro kv hkv
      obtain ⟨kv₀, hkv₀, hmap⟩ := List.mem_map.mp hkv
      by_cases hk : kv₀.1 = k
      · rw [← hmap]
        simp [hk]
      · rw [← hmap]
        simp only [hk, beq_iff_eq, if_false, if_neg hk]
        exact hne kv₀ hkv₀
  · have heq : pushCandidate m k c = m ++ [(k, [c])] := by simp [pushCandidate, hp]
    constructor
    · rw [heq, objKeys_append, List.nodup_append]
      refine ⟨hnd, List.nodup_singleton k, ?_⟩
      intro a ha hb
      simp only [objKeys, List.map_cons, List.map_nil, List.mem_singleton] at hb
      subst hb
      have hsome : (objGet m a).isSome := (objGet_isSome_iff m a).mpr ha
      rw [objGet_isSome_eq_find] at hsome
      exact hp hsome
    · rw [heq]
      intro kv hkv
      rcases List.mem_append.mp hkv with hm | hs
      · exact hne kv hm
      · simp only [List.mem_singleton] at hs
        subst hs
        simp

theorem collectConflicts_good (assignments : List Assignment) :
    GoodConflicts (collectConflicts assignments) := by
  have inner : ∀ (ms : List (String × Bool × Option Nat)) (a : Assignment)
      (acc : List (String × List Candidate)), GoodConflicts acc →
      GoodConflicts (ms.foldl
        (fun cf m => pushCandidate cf m.1 ⟨a.filename, a.similarity, m.2.1, m.2.2⟩) acc) := by
    intro ms a
    induction ms with
    | nil => exact fun acc h => h
    | cons mh mt ih =>
      intro acc h
      exact ih _ (pushCandidate_preserves h)
  have outer : ∀ (l : List Assignment) (acc : List (String × List Candidate)),
      GoodConflicts acc →
      GoodConflicts (l.foldl (fun conflicts a =>
        (deriveMappings a).foldl
          (fun cf m => pushCandidate cf m.1 ⟨a.filename, a.similarity, m.2.1, m.2.2⟩)
          conflicts) acc) := by
    intro l
    induction l with
    | nil => exact fun acc h => h
    | cons a t ih =>
      intro acc h
      exact ih _ (inner (deriveMappings a) a acc h)
  exact outer assignments [] ⟨List.nodup_nil, by simp⟩

theorem resolveKey_tie_iff {cs : List Candidate} :
    (∃ w tie, resolveKey cs = some (w, some tie)) ↔
      2 ≤ (cs.filter (fun c => c.isPrimary)).length := by
  constructor
  · rintro ⟨w, tie, h⟩
    by_cases hlen : 1 < cs.length
    · by_cases h2 : 1 < (cs.filter (fun c => c.isPrimary)).length
      · exact h2
      · cases hP : cs.filter (fun c => c.isPrimary) with
        | nil =>
          obtain ⟨w', rest, _, hr⟩ := resolveKey_no_primary hlen hP
          rw [hr] at h
          exact Option.noConfusion (congrArg Prod.snd (Option.some.inj h))
        | cons p t =>
          cases t with
          | nil =>
            rw [resolveKey_single_primary hlen hP] at h
            exact Option.noConfusion (congrArg Prod.snd (Option.some.inj h))
          | cons p' t' => rw [hP] at h2; simp at h2
    · cases cs with
      | nil => exact Option.noConfusion (resolveKey_nil ▸ h)
      | cons c t =>
        rw [resolveKey_short hlen] at h
        exact Option.noConfusion (congrArg Prod.snd (Option.some.inj h))
  · intro h2
    have hlen : 1 < cs.length := lt_of_lt_of_le h2 (List.length_filter_le _ _)
    obtain ⟨w, rest, hsort, hr⟩ := resolveKey_multi_primary hlen h2
    exact ⟨w, w :: rest, hr⟩

theorem tieRow_isSome_iff {k : String} {cs : List Candidate} :
    (tieRow (k, cs)).isSome ↔ ∃ w tie, resolveKey cs = some (w, some tie) := by
  unfold tieRow
  cases hr : resolveKey cs with
  | none => simp
  | some p =>
    obtain ⟨w, tie⟩ := p
    cases tie <;> simp

/-- Keys equal in order, no duplicates, and pointwise equal lookups force two
association lists to be equal. -/
theorem assoc_ext {α : Type _} (m₁ m₂ : List (String × α))
    (hk : objKeys m₁ = objKeys m₂) (hnd : (objKeys m₁).Nodup)
    (h : ∀ k, objGet m₁ k = objGet m₂ k) : m₁ = m₂ := by
  induction m₁ generalizing m₂ with
  | nil =>
    cases m₂ with
    | nil => rfl
    | cons kv t => simp [objKeys] at hk
  | cons kv t ih =>
    obtain ⟨k, v⟩ := kv
    cases m₂ with
    | nil => simp [objKeys] at hk
    | cons kv₂ t₂ =>
      obtain ⟨k₂, v₂⟩ := kv₂
      simp only [objKeys, List.map_cons, List.cons.injEq] at hk
      obtain ⟨hkk, hkt⟩ := hk
      subst hkk
      have hv : v = v₂ := by
        have := h k
        simp [objGet_cons] at this
        exact this
      subst hv
      simp only [objKeys, List.map_cons, List.nodup_cons] at hnd
      have ht : t = t₂ := by
        refine ih t₂ hkt hnd.2 (fun k' => ?_)
        by_cases hk' : k = k'
        · subst hk'
          have hk2 : k ∉ objKeys t₂ := by
            show k ∉ List.map Prod.fst t₂
            rw [← hkt]
            exact hnd.1
          rw [objGet_eq_none_of_not_mem hnd.1, objGet_eq_none_of_not_mem hk2]
        · have := h k'
          rwa [objGet_cons, objGet_cons, if_neg hk', if_neg hk'] at this
      rw [ht]

/-! ### Override-stage lemmas -/

theorem applyOverrideEntry_fst_objGet
    (acc : List (String × JValue) × Nat) (k' : String) (v : JValue) (k : String) :
    objGet (applyOverrideEntry acc k' v).1 k =
      match entryWinner v with
      | none => objGet acc.1 k
      | some w => if k' = k then stepVal (objGet acc.1 k) w else objGet acc.1 k := by
  cases v with
  | jarr xs =>
    cases xs with
    | nil => rfl
    | cons w ws =>
      show objGet (match objGet acc.1 k' with
        | some cur =>
          if cur.truthy && !(JValue.beq cur w) then (objSet acc.1 k' w, acc.2 + 1) else acc
        | none => acc).1 k = _
      cases hg : objGet acc.1 k' with
      | none =>
        show objGet acc.1 k = _
        by_cases hk : k' = k
        · subst hk
          show objGet acc.1 k' = if k' = k' then stepVal (objGet acc.1 k') w else _
          rw [if_pos rfl, hg]
          rfl
        · rw [show (match entryWinner (JValue.jarr (w :: ws)) with
            | none => objGet acc.1 k
            | some w => if k' = k then stepVal (objGet acc.1 k) w else objGet acc.1 k) =
              if k' = k then stepVal (objGet acc.1 k) w else objGet acc.1 k from rfl,
            if_neg hk]
      | some cur =>
        show objGet (if cur.truthy && !(JValue.beq cur w) then
            (objSet acc.1 k' w, acc.2 + 1) else acc).1 k = _
        by_cases hc : (cur.truthy && !(JValue.beq cur w)) = true
        · rw [if_pos hc]
          show objGet (objSet acc.1 k' w) k = _
          by_cases hk : k' = k
          · subst hk
            rw [objGet_objSet_self]
            show _ = if k' = k' then stepVal (objGet acc.1 k') w else _
            rw [if_pos rfl, hg]
            show some w = if cur.truthy && !(JValue.beq cur w) then some w else some cur
            rw [if_pos hc]
          · rw [objGet_objSet_ne _ _ hk]
            show _ = if k' = k then stepVal (objGet acc.1 k) w else objGet acc.1 k
            rw [if_neg hk]
        · rw [if_neg hc]
          show objGet acc.1 k = _
          by_cases hk : k' = k
          · subst hk
            show objGet acc.1 k' = if k' = k' then stepVal (objGet acc.1 k') w else _
            rw [if_pos rfl, hg]
            show some cur = if cur.truthy && !(JValue.beq cur w) then some w else some cur
            rw [if_neg hc]
          · show _ = if k' = k then stepVal (objGet acc.1 k) w else objGet acc.1 k
            rw [if_neg hk]
  | jundefined => rfl
  | jnull => rfl
  | jbool b => rfl
  | jnum q => rfl
  | jstr s => rfl
  | jobj fields => rfl

theorem foldl_applyOverrideEntry_fst_objGet :
    ∀ (es : List (String × JValue)) (acc : List (String × JValue) × Nat) (k : String),
      objGet ((es.foldl (fun a kv => applyOverrideEntry a kv.1 kv.2) acc).1) k =
        List.foldl stepVal (objGet acc.1 k)
          (es.filterMap (fun kv => if kv.1 = k then entryWinner kv.2 else none))
  | [], acc, k => rfl
  | e :: es, acc, k => by
    rw [List.foldl_cons, foldl_applyOverrideEntry_fst_objGet es _ k, List.filterMap_cons,
      applyOverrideEntry_fst_objGet acc e.1 e.2 k]
    cases hw : entryWinner e.2 with
    | none => simp
    | some w =>
      by_cases hk : e.1 = k
      · simp [hk]
      · simp [hk]

theorem applyOverrideEntry_fst_keys (acc : List (String × JValue) × Nat) (k' : String)
    (v : JValue) : objKeys (applyOverrideEntry acc k' v).1 = objKeys acc.1 := by
  cases v with
  | jarr xs =>
    cases xs with
    | nil => rfl
    | cons w ws =>
      show objKeys (match objGet acc.1 k' with
        | some cur =>
          if cur.truthy && !(JValue.beq cur w) then (objSet acc.1 k' w, acc.2 + 1) else acc
        | none => acc).1 = _
      cases hg : objGet acc.1 k' with
      | none => rfl
      | some cur =>
        show objKeys (if cur.truthy && !(JValue.beq cur w) then
            (objSet acc.1 k' w, acc.2 + 1) else acc).1 = _
        by_cases hc : (cur.truthy && !(JValue.beq cur w)) = true
        · rw [if_pos hc]
          exact objKeys_objSet_of_present _ (by simp [hg])
        · rw [if_neg hc]
  | jundefined => rfl
  | jnull => rfl
  | jbool b => rfl
  | jnum q => rfl
  | jstr s => rfl
  | jobj fields => rfl

theorem foldl_applyOverrideEntry_fst_keys :
    ∀ (es : List (String × JValue)) (acc : List (String × JValue) × Nat),
      objKeys ((es.foldl (fun a kv => applyOverrideEntry a kv.1 kv.2) acc).1) = objKeys acc.1
  | [], acc => rfl
  | e :: es, acc => by
    rw [List.foldl_cons, foldl_applyOverrideEntry_fst_keys es _,
      applyOverrideEntry_fst_keys acc e.1 e.2]

theorem applyManualTies_fst_objGet (m : List (String × JValue)) (file : JValue) (k : String) :
    objGet (applyManualTies m file).1.1 k =
      if ((file.getProp "ties").truthy && (file.getProp "ties").isObjType) = true then
        List.foldl stepVal (objGet m k)
          ((file.getProp "ties").entriesOf.filterMap
            (fun kv => if kv.1 = k then entryWinner kv.2 else none))
      else objGet m k := by
  unfold applyManualTies
  by_cases hv : ((file.getProp "ties").truthy && (file.getProp "ties").isObjType) = true
  · rw [if_pos hv, if_pos hv]
    exact foldl_applyOverrideEntry_fst_objGet _ (m, 0) k
  · rw [if_neg hv, if_neg hv]

theorem applyManualTies_fst_keys (m : List (String × JValue)) (file : JValue) :
    objKeys (applyManualTies m file).1.1 = objKeys m := by
  unfold applyManualTies
  by_cases hv : ((file.getProp "ties").truthy && (file.getProp "ties").isObjType) = true
  · rw [if_pos hv]
    exact foldl_applyOverrideEntry_fst_keys _ (m, 0)
  · rw [if_neg hv]

theorem overridesStage_keys (m : List (String × JValue)) (file : Option JValue) :
    objKeys (overridesStage m file).1 = objKeys m := by
  cases file with
  | none => rfl
  | some f => exact applyManualTies_fst_keys m f

theorem foldl_stepVal_of_not_truthy :
    ∀ (ws : List JValue) (x : Option JValue),
      truthyOpt x = false → List.foldl stepVal x ws = x
  | [], x, _ => rfl
  | w :: ws, x, hx => by
    have hstep : stepVal x w = x := by
      cases x with
      | none => rfl
      | some c =>
        have hx' : c.truthy = false := hx
        show (if c.truthy && !(JValue.beq c w) then some w else some c) = some c
        rw [hx']
        rfl
    rw [List.foldl_cons, hstep, foldl_stepVal_of_not_truthy ws x hx]

theorem stepVal_of_truthy {c : JValue} (hc : c.truthy = true) (w : JValue) :
    stepVal (some c) w = some w := by
  unfold stepVal
  by_cases hb : JValue.beq c w = true
  · have hcw : c = w := JValue.eq_of_beq _ _ hb
    subst hcw
    simp
  · simp [hc, hb]

theorem foldl_stepVal_idem (ws : List JValue) (x : Option JValue) :
    List.foldl stepVal (List.foldl stepVal x ws) ws = List.foldl stepVal x ws := by
  cases hy : truthyOpt (List.foldl stepVal x ws) with
  | false => exact foldl_stepVal_of_not_truthy ws _ hy
  | true =>
    cases ws with
    | nil => rfl
    | cons w rest =>
      cases hx : truthyOpt x with
      | false =>
        rw [foldl_stepVal_of_not_truthy (w :: rest) x hx] at hy
        rw [hx] at hy
        exact Bool.noConfusion hy
      | true =>
        have hxx : List.foldl stepVal x (w :: rest) = List.foldl stepVal (some w) rest := by
          rw [List.foldl_cons]
          cases x with
          | none => simp [truthyOpt] at hx
          | some c => rw [stepVal_of_truthy hx w]
        have hyy : List.foldl stepVal (List.foldl stepVal x (w :: rest)) (w :: rest) =
            List.foldl stepVal (some w) rest := by
          rw [List.foldl_cons]
          cases hz : List.foldl stepVal x (w :: rest) with
          | none => rw [hz] at hy; simp [truthyOpt] at hy
          | some c =>
            rw [hz] at hy
            rw [stepVal_of_truthy hy w]
        rw [hyy, hxx]

theorem filterMap_entryWinner_of_not_mem :
    ∀ (entries : List (String × JValue)) {k : String}, k ∉ objKeys entries →
      entries.filterMap (fun kv => if kv.1 = k then entryWinner kv.2 else none) = []
  | [], k, _ => rfl
  | e :: es, k, h => by
    have hke : e.1 ≠ k := fun he => h (he ▸ List.mem_cons_self _ _)
    have hkt : k ∉ objKeys es := fun hm => h (List.mem_cons_of_mem _ hm)
    rw [List.filterMap_cons]
    simp only [hke, if_false, if_neg hke]
    exact filterMap_entryWinner_of_not_mem es hkt

theorem filterMap_entryWinner_of_nodup :
    ∀ (entries : List (String × JValue)), (objKeys entries).Nodup →
      ∀ {k : String} {v : JValue}, objGet entries k = some v →
        entries.filterMap (fun kv => if kv.1 = k then entryWinner kv.2 else none) =
          (entryWinner v).toList
  | [], _, k, v, h => by simp [objGet] at h
  | (k', v') :: es, hnd, k, v, h => by
    have hknd : k' ∉ objKeys es := by
      simp only [objKeys, List.map_cons, List.nodup_cons] at hnd
      exact hnd.1
    have hndt : (objKeys es).Nodup := by
      simp only [objKeys, List.map_cons, List.nodup_cons] at hnd
      exact hnd.2
    rw [objGet_cons] at h
    rw [List.filterMap_cons]
    by_cases hk : k' = k
    · have hv : v' = v := Option.some.inj (by rw [← h, if_pos hk])
      subst hv
      subst hk
      rw [if_pos rfl, filterMap_entryWinner_of_not_mem es hknd]
      cases entryWinner v' <;> rfl
    · rw [if_neg hk] at h
      rw [if_neg hk]
      exact filterMap_entryWinner_of_nodup es hndt h

/-- Tie-record keys are mapping keys at the resolver output. -/
theorem tieKeys_sub_mapKeys {assignments : List Assignment} {k : String}
    (h : k ∈ objKeys (resolveAll (collectConflicts assignments)).2) :
    k ∈ objKeys (resolveAll (collectConflicts assignments)).1 := by
  have hgood := collectConflicts_good assignments
  rw [resolveAll_closed hgood.1] at h ⊢
  have hkc := mem_keys_filterMap tieRow (fun kv r => tieRow_key) _ h
  obtain ⟨cs, hcs⟩ := Option.isSome_iff_exists.mp ((objGet_isSome_iff _ _).mpr hkc)
  have hne : cs ≠ [] := hgood.2 (k, cs) (mem_of_objGet_eq_some hcs)
  have hrs := resolveKey_isSome hne
  apply (objGet_isSome_iff _ _).mp
  rw [objGet_filterMap_keyed mappingRow (fun kv r => mappingRow_key) _ hgood.1 hcs]
  unfold mappingRow
  cases hr : resolveKey cs with
  | none => rw [hr] at hrs; simp at hrs
  | some p => simp

/-! ### Claim C1 -/

/-- C1: for every label key whose conflict set has at least two candidates:
if the set contains at least one primary candidate, the resolved winner is
the primary candidate with the highest confidence, equal confidences being
broken in favor of the earlier-inserted candidate (stable descending sort,
expressed by `firstMaxBySim`), and a non-primary candidate never wins
regardless of confidence; if the set contains no primary candidate, the
winner is the non-primary candidate with the smallest `altIndex`.  For a key
with exactly one candidate, that sole candidate wins. -/
theorem C1_conflict_resolution_policy (candidates : List Candidate) :
    (∀ c : Candidate, candidates = [c] → resolveKey candidates = some (c, none)) ∧
    (2 ≤ candidates.length →
      ((candidates.filter (fun c => c.isPrimary)) ≠ [] →
        ∃ w tie, resolveKey candidates = some (w, tie) ∧
          firstMaxBySim (candidates.filter (fun c => c.isPrimary)) = some w ∧
          w.isPrimary = true ∧
          ∀ c ∈ candidates.filter (fun c => c.isPrimary), c.similarity ≤ w.similarity) ∧
      ((candidates.filter (fun c => c.isPrimary)) = [] →
        ∃ w, resolveKey candidates = some (w, none) ∧ w ∈ candidates ∧
          w.isPrimary = false ∧
          ∀ c ∈ candidates, w.altIndex.getD 0 ≤ c.altIndex.getD 0)) := by
  refine ⟨?_, fun hlen => ⟨?_, ?_⟩⟩
  · rintro c rfl
    exact resolveKey_short (by simp)
  · intro hP
    by_cases h2 : 1 < (candidates.filter (fun c => c.isPrimary)).length
    · obtain ⟨w, rest, hsort, hr⟩ := resolveKey_multi_primary hlen h2
      have hfm : firstMaxBySim (candidates.filter (fun c => c.isPrimary)) = some w := by
        rw [← head?_insertionSort_descBySim, hsort]
        rfl
      have hwP : w ∈ candidates.filter (fun c => c.isPrimary) :=
        (List.perm_insertionSort _ _).mem_iff.mp (hsort ▸ List.mem_cons_self _ _)
      exact ⟨w, some (w :: rest), hr, hfm, List.of_mem_filter hwP,
        firstMaxBySim_max hfm⟩
    · cases hPeq : candidates.filter (fun c => c.isPrimary) with
      | nil => exact absurd hPeq hP
      | cons p t =>
        cases t with
        | nil =>
          refine ⟨p, none, resolveKey_single_primary hlen hPeq, rfl,
            List.of_mem_filter (hPeq ▸ List.mem_cons_self p []), firstMaxBySim_max rfl⟩
        | cons p' t' => rw [hPeq] at h2; simp at h2
  · intro hP
    obtain ⟨w, rest, hsort, hr⟩ := resolveKey_no_primary hlen hP
    have hwmem : w ∈ candidates :=
      (List.perm_insertionSort _ _).mem_iff.mp (hsort ▸ List.mem_cons_self _ _)
    have hwnp : w.isPrimary = false := by
      have := List.filter_eq_nil_iff.mp hP w hwmem
      simpa using this
    exact ⟨w, hr, hwmem, hwnp, head_minimal_ascByAlt hsort⟩

/-- Witness for C1 at a concrete two-primary conflict set. -/
theorem C1_witness :
    (2 ≤ ([⟨some "add", mkRat 9 10, true, none⟩,
           ⟨some "plus", mkRat 8 10, true, none⟩] : List Candidate).length) ∧
    (([⟨some "add", mkRat 9 10, true, none⟩,
       ⟨some "plus", mkRat 8 10, true, none⟩] : List Candidate).filter
        (fun c => c.isPrimary) ≠ []) ∧
    ∃ w tie,
      resolveKey [⟨some "add", mkRat 9 10, true, none⟩,
        ⟨some "plus", mkRat 8 10, true, none⟩] = some (w, tie) ∧
      firstMaxBySim (([⟨some "add", mkRat 9 10, true, none⟩,
        ⟨some "plus", mkRat 8 10, true, none⟩] : List Candidate).filter
          (fun c => c.isPrimary)) = some w ∧
      w.isPrimary = true ∧
      ∀ c ∈ (([⟨some "add", mkRat 9 10, true, none⟩,
          ⟨some "plus", mkRat 8 10, true, none⟩] : List Candidate).filter
            (fun c => c.isPrimary)), c.similarity ≤ w.similarity :=
  ⟨by decide, by decide,
    ((C1_conflict_resolution_policy _).2 (by decide)).1 (by decide)⟩

/-! ### Claim C2 -/

/-- C2: a label key appears in the tie records iff its conflict set contains
two or more primary candidates; its tie sequence is the primary candidates'
asset identifiers in confidence-descending stable order, includes no
non-primary candidate, and its first element equals the resolved mapping's
value for that key before overrides.  A key claimed by exactly one candidate
never appears in the tie records. -/
theorem C2_tie_records (assignments : List Assignment) (k : String) :
    (k ∈ objKeys (resolveAll (collectConflicts assignments)).2 ↔
      ∃ cs, objGet (collectConflicts assignments) k = some cs ∧
        2 ≤ (cs.filter (fun c => c.isPrimary)).length) ∧
    (∀ seq, objGet (resolveAll (collectConflicts assignments)).2 k = some seq →
      ∃ cs S, objGet (collectConflicts assignments) k = some cs ∧
        IsStableDescSimSort (cs.filter (fun c => c.isPrimary)) S ∧
        (∀ c ∈ S, c.isPrimary = true) ∧
        seq = S.map (fun c => fnameVal c.filename) ∧
        ∃ v, objGet (resolveAll (collectConflicts assignments)).1 k = some v ∧
          seq.head? = some v) ∧
    (∀ c : Candidate, objGet (collectConflicts assignments) k = some [c] →
      k ∉ objKeys (resolveAll (collectConflicts assignments)).2) := by
  have hgood := collectConflicts_good assignments
  have hnd := hgood.1
  have hclosed := resolveAll_closed hnd
  have hiff : k ∈ objKeys (resolveAll (collectConflicts assignments)).2 ↔
      ∃ cs, objGet (collectConflicts assignments) k = some cs ∧
        2 ≤ (cs.filter (fun c => c.isPrimary)).length := by
    rw [hclosed]
    constructor
    · intro hk
      have hkc : k ∈ objKeys (collectConflicts assignments) :=
        mem_keys_filterMap tieRow (fun kv r => tieRow_key) _ hk
      obtain ⟨cs, hcs⟩ := Option.isSome_iff_exists.mp
        ((objGet_isSome_iff _ k).mpr hkc)
      refine ⟨cs, hcs, ?_⟩
      have hget := objGet_filterMap_keyed tieRow (fun kv r => tieRow_key) _ hnd hcs
      have hks : (objGet ((collectConflicts assignments).filterMap tieRow) k).isSome :=
        (objGet_isSome_iff _ k).mpr hk
      rw [hget] at hks
      have : (tieRow (k, cs)).isSome := by
        cases ht : tieRow (k, cs) with
        | none => rw [ht] at hks; simp at hks
        | some r => simp
      exact resolveKey_tie_iff.mp (tieRow_isSome_iff.mp this)
    · rintro ⟨cs, hcs, h2⟩
      have hts : (tieRow (k, cs)).isSome :=
        tieRow_isSome_iff.mpr (resolveKey_tie_iff.mpr h2)
      have hget := objGet_filterMap_keyed tieRow (fun kv r => tieRow_key) _ hnd hcs
      apply (objGet_isSome_iff _ k).mp
      rw [hget]
      cases ht : tieRow (k, cs) with
      | none => rw [ht] at hts; simp at hts
      | some r => simp
  refine ⟨hiff, ?_, ?_⟩
  · intro seq hseq
    have hk : k ∈ objKeys (resolveAll (collectConflicts assignments)).2 :=
      (objGet_isSome_iff _ k).mp (by simp [hseq])
    obtain ⟨cs, hcs, h2⟩ := hiff.mp hk
    obtain ⟨w, rest, hsort, hr⟩ :=
      resolveKey_multi_primary (lt_of_lt_of_le h2 (List.length_filter_le _ _)) h2
    refine ⟨cs, w :: rest, hcs, hsort ▸ insertionSort_isStableDescSimSort _, ?_, ?_, ?_⟩
    · intro c hc
      exact List.of_mem_filter
        ((List.perm_insertionSort _ _).mem_iff.mp (hsort ▸ hc))
    · have hget := objGet_filterMap_keyed tieRow (fun kv r => tieRow_key) _ hnd hcs
      rw [hclosed] at hseq
      rw [hseq] at hget
      have : tieRow (k, cs) =
          some (k, (w :: rest).map (fun c => fnameVal c.filename)) := by
        unfold tieRow
        rw [hr]
        rfl
      rw [this] at hget
      exact Option.some.inj hget
    · refine ⟨fnameVal w.filename, ?_, ?_⟩
      · have hget := objGet_filterMap_keyed mappingRow (fun kv r => mappingRow_key) _ hnd hcs
        rw [hclosed]
        rw [hget]
        unfold mappingRow
        rw [hr]
        rfl
      · have hget := objGet_filterMap_keyed tieRow (fun kv r => tieRow_key) _ hnd hcs
        rw [hclosed] at hseq
        rw [hseq] at hget
        have : tieRow (k, cs) =
            some (k, (w :: rest).map (fun c => fnameVal c.filename)) := by
          unfold tieRow
          rw [hr]
          rfl
        rw [this] at hget
        rw [Option.some.inj hget]
        rfl
  · intro c hc hk
    obtain ⟨cs, hcs, h2⟩ := hiff.mp hk
    rw [hc] at hcs
    have : cs = [c] := (Option.some.inj hcs).symm
    rw [this] at h2
    have : ([c].filter (fun c => c.isPrimary)).length ≤ 1 := by
      cases hcp : c.isPrimary <;> simp [List.filter, hcp]
    omega

/-- Witness for C2 at the two-primary scenario of the specification. -/
theorem C2_witness :
    (objGet (resolveAll (collectConflicts
        [⟨some "add", "add", [], "➕", "", [], mkRat 9 10⟩,
         ⟨some "plus", "plus", [], "➕", "", [], mkRat 8 10⟩])).2 "➕" =
      some [.jstr "add", .jstr "plus"]) ∧
    ∃ cs S,
      objGet (collectConflicts
        [⟨some "add", "add", [], "➕", "", [], mkRat 9 10⟩,
         ⟨some "plus", "plus", [], "➕", "", [], mkRat 8 10⟩]) "➕" = some cs ∧
      IsStableDescSimSort (cs.filter (fun c => c.isPrimary)) S ∧
      (∀ c ∈ S, c.isPrimary = true) ∧
      ([JValue.jstr "add", JValue.jstr "plus"] : List JValue) =
        S.map (fun c => fnameVal c.filename) ∧
      ∃ v, objGet (resolveAll (collectConflicts
          [⟨some "add", "add", [], "➕", "", [], mkRat 9 10⟩,
           ⟨some "plus", "plus", [], "➕", "", [], mkRat 8 10⟩])).1 "➕" = some v ∧
        ([JValue.jstr "add", JValue.jstr "plus"] : List JValue).head? = some v :=
  ⟨rfl, (C2_tie_records _ "➕").2.1 [.jstr "add", .jstr "plus"] rfl⟩

/-! ### Claim C6 -/

/-- C6: applying the same override map twice in succession yields the same
final resolved mapping as applying it once. -/
theorem C6_override_idempotent (m : List (String × JValue)) (file : Option JValue)
    (hnd : (objKeys m).Nodup) :
    (overridesStage (overridesStage m file).1 file).1 = (overridesStage m file).1 := by
  cases file with
  | none => rfl
  | some f =>
    show (applyManualTies (applyManualTies m f).1.1 f).1.1 = (applyManualTies m f).1.1
    apply assoc_ext
    · rw [applyManualTies_fst_keys]
    · rw [applyManualTies_fst_keys, applyManualTies_fst_keys]
      exact hnd
    · intro k
      rw [applyManualTies_fst_objGet, applyManualTies_fst_objGet]
      by_cases hv : ((f.getProp "ties").truthy && (f.getProp "ties").isObjType) = true
      · rw [if_pos hv, if_pos hv]
        exact foldl_stepVal_idem _ _
      · rw [if_neg hv, if_neg hv]

/-- Witness for C6 at a concrete mapping and override file. -/
theorem C6_witness :
    ((objKeys ([("x", JValue.jstr "a")] : List (String × JValue))).Nodup) ∧
    (overridesStage (overridesStage [("x", JValue.jstr "a")]
        (some (.jobj [("ties", .jobj [("x", .jarr [.jstr "b"])])]))).1
      (some (.jobj [("ties", .jobj [("x", .jarr [.jstr "b"])])]))).1 =
    (overridesStage [("x", JValue.jstr "a")]
      (some (.jobj [("ties", .jobj [("x", .jarr [.jstr "b"])])]))).1 :=
  ⟨by decide,
    C6_override_idempotent [("x", JValue.jstr "a")]
      (some (.jobj [("ties", .jobj [("x", .jarr [.jstr "b"])])])) (by decide)⟩

/-! ### Claim C10 -/

/-- C10: at every stage after resolution — including after manual override
application — every key present in the tie records is also present in the
resolved mapping. -/
theorem C10_tie_keys_subset (assignments : List Assignment) (file : Option JValue)
    (k : String) (h : k ∈ objKeys (resolveAll (collectConflicts assignments)).2) :
    k ∈ objKeys (resolveAll (collectConflicts assignments)).1 ∧
    k ∈ objKeys (overridesStage (resolveAll (collectConflicts assignments)).1 file).1 := by
  refine ⟨tieKeys_sub_mapKeys h, ?_⟩
  rw [overridesStage_keys]
  exact tieKeys_sub_mapKeys h

/-- Witness for C10 at the two-primary scenario with an override file. -/
theorem C10_witness :
    ("➕" ∈ objKeys (resolveAll (collectConflicts
        [⟨some "add", "add", [], "➕", "", [], mkRat 9 10⟩,
         ⟨some "plus", "plus", [], "➕", "", [], mkRat 8 10⟩])).2) ∧
    ("➕" ∈ objKeys (resolveAll (collectConflicts
        [⟨some "add", "add", [], "➕", "", [], mkRat 9 10⟩,
         ⟨some "plus", "plus", [], "➕", "", [], mkRat 8 10⟩])).1 ∧
     "➕" ∈ objKeys (overridesStage (resolveAll (collectConflicts
        [⟨some "add", "add", [], "➕", "", [], mkRat 9 10⟩,
         ⟨some "plus", "plus", [], "➕", "", [], mkRat 8 10⟩])).1
        (some (.jobj [("ties", .jobj [("➕", .jarr [.jstr "plus"])])]))).1) :=
  ⟨by decide,
    C10_tie_keys_subset _ (some (.jobj [("ties", .jobj [("➕", .jarr [.jstr "plus"])])]))
      "➕" (by decide)⟩

/-! ### Claim C3 -/

/-- C3 counterexample: the override guard tests JavaScript truthiness, not
key existence.  A key resolved to the empty-string asset identifier (a
proposal with an empty `filename`) exists in the mapping, yet a well-formed
override entry for it is not applied: the final value stays `""` instead of
the override's first element `"a"`. -/
theorem C3_counterexample :
    (objGet (resolveAll (collectConflicts
        [⟨some "", "x", [], "x", "", [], 1⟩])).1 "x").isSome = true ∧
    objGet (overridesStage (resolveAll (collectConflicts
        [⟨some "", "x", [], "x", "", [], 1⟩])).1
        (some (.jobj [("ties", .jobj [("x", .jarr [.jstr "a"])])]))).1 "x" =
      some (.jstr "") ∧
    some (JValue.jstr "") ≠ some (JValue.jstr "a") := by
  refine ⟨rfl, rfl, ?_⟩
  intro h
  exact absurd (congrArg (fun o => o.getD JValue.jundefined) h) (by decide)

/-- C3 amended: for a well-formed override entry `key → [W, ...]`, the final
mapping value for `key` equals `W` whenever the key currently holds a truthy
(defined and non-empty) value; a key holding a falsy value is left unchanged,
an absent key is not created, the key set is unchanged, and the tie records
are untouched by the override stage. -/
theorem C3_override_precedence
    (isEMB isEM isEP isEmo : Char → Bool) (lc : String → String → Int)
    (input : EmojiAssignments) (now : String)
    (m : List (String × JValue)) (entries : List (String × JValue)) (file : JValue)
    (hfile : file.getProp "ties" = .jobj entries)
    (hend : (objKeys entries).Nodup)
    (k : String) (w : JValue) (rest : List JValue)
    (hentry : objGet entries k = some (.jarr (w :: rest))) :
    (∀ cur, objGet m k = some cur → cur.truthy = true →
      objGet (applyManualTies m file).1.1 k = some w) ∧
    (∀ cur, objGet m k = some cur → cur.truthy = false →
      objGet (applyManualTies m file).1.1 k = some cur) ∧
    (objGet m k = none → objGet (applyManualTies m file).1.1 k = none) ∧
    objKeys (applyManualTies m file).1.1 = objKeys m ∧
    (createEmojiToIconMapping isEMB isEM isEP isEmo lc input (some file) now).emojiTies.ties =
      (createEmojiToIconMapping isEMB isEM isEP isEmo lc input none now).emojiTies.ties := by
  have hv : ((file.getProp "ties").truthy && (file.getProp "ties").isObjType) = true := by
    rw [hfile]
    rfl
  have hentriesOf : (file.getProp "ties").entriesOf = entries := by
    rw [hfile]
    rfl
  have hws : (file.getProp "ties").entriesOf.filterMap
      (fun kv => if kv.1 = k then entryWinner kv.2 else none) = [w] := by
    rw [hentriesOf, filterMap_entryWinner_of_nodup entries hend hentry]
    rfl
  refine ⟨?_, ?_, ?_, applyManualTies_fst_keys m file, rfl⟩
  · intro cur hcur htr
    rw [applyManualTies_fst_objGet, if_pos hv, hws, hcur, List.foldl_cons, List.foldl_nil,
      stepVal_of_truthy htr]
  · intro cur hcur htr
    rw [applyManualTies_fst_objGet, if_pos hv, hws, hcur, List.foldl_cons, List.foldl_nil]
    show stepVal (some cur) w = some cur
    show (if cur.truthy && !(JValue.beq cur w) then some w else some cur) = some cur
    rw [htr]
    rfl
  · intro hnone
    rw [applyManualTies_fst_objGet, if_pos hv, hws, hnone, List.foldl_cons, List.foldl_nil]
    rfl

/-- Witness for C3 at a concrete mapping and override file. -/
theorem C3_witness :
    ((JValue.jobj [("ties", JValue.jobj [("x", JValue.jarr [JValue.jstr "new"])])]).getProp
        "ties" = .jobj [("x", JValue.jarr [JValue.jstr "new"])]) ∧
    ((objKeys ([("x", JValue.jarr [JValue.jstr "new"])] : List (String × JValue))).Nodup) ∧
    (objGet ([("x", JValue.jarr [JValue.jstr "new"])] : List (String × JValue)) "x" =
      some (.jarr [JValue.jstr "new"])) ∧
    (objGet ([("x", JValue.jstr "old")] : List (String × JValue)) "x" =
      some (JValue.jstr "old")) ∧
    (JValue.jstr "old").truthy = true ∧
    objGet (applyManualTies [("x", JValue.jstr "old")]
        (.jobj [("ties", .jobj [("x", .jarr [.jstr "new"])])])).1.1 "x" =
      some (JValue.jstr "new") :=
  ⟨rfl, by decide, rfl, rfl, by decide,
    (C3_override_precedence (fun _ => false) (fun _ => false) (fun _ => false) (fun _ => false)
      (fun _ _ => 0) ⟨"g", 0, []⟩ "t"
      [("x", JValue.jstr "old")] [("x", JValue.jarr [JValue.jstr "new"])]
      (.jobj [("ties", .jobj [("x", .jarr [.jstr "new"])])]) rfl (by decide)
      "x" (JValue.jstr "new") [] rfl).1 (JValue.jstr "old") rfl (by decide)⟩

/-! ### Claim C7 -/

/-- C7 counterexample: a manual override may force a winner that is not a
member of the key's conflict set, so coverage does not survive the override
stage.  The key `"x"` was claimed only by asset `"a"`, yet after the
override it maps to `"b"`. -/
theorem C7_counterexample :
    objGet (collectConflicts [⟨some "a", "a", [], "x", "", [], 1⟩]) "x" =
      some [⟨some "a", 1, true, none⟩] ∧
    objGet (overridesStage (resolveAll (collectConflicts
        [⟨some "a", "a", [], "x", "", [], 1⟩])).1
        (some (.jobj [("ties", .jobj [("x", .jarr [.jstr "b"])])]))).1 "x" =
      some (.jstr "b") ∧
    ∀ c ∈ [(⟨some "a", 1, true, none⟩ : Candidate)], fnameVal c.filename ≠ .jstr "b" := by
  refine ⟨rfl, rfl, ?_⟩
  intro c hc
  rw [List.mem_singleton] at hc
  subst hc
  decide

/-- C7 amended: before the manual-override stage, every resolved value is
the filename of one of the candidates collected for that key; an override
may later replace it with an arbitrary identifier. -/
theorem C7_coverage_before_overrides (assignments : List Assignment) (k : String)
    (v : JValue) (h : objGet (resolveAll (collectConflicts assignments)).1 k = some v) :
    ∃ cs, objGet (collectConflicts assignments) k = some cs ∧
      ∃ c, c ∈ cs ∧ v = fnameVal c.filename := by
  have hgood := collectConflicts_good assignments
  rw [resolveAll_closed hgood.1] at h
  have hk : k ∈ objKeys ((collectConflicts assignments).filterMap mappingRow) :=
    (objGet_isSome_iff _ _).mp (by simp [h])
  have hkc := mem_keys_filterMap mappingRow (fun kv r => mappingRow_key) _ hk
  obtain ⟨cs, hcs⟩ := Option.isSome_iff_exists.mp ((objGet_isSome_iff _ _).mpr hkc)
  refine ⟨cs, hcs, ?_⟩
  rw [objGet_filterMap_keyed mappingRow (fun kv r => mappingRow_key) _ hgood.1 hcs] at h
  unfold mappingRow at h
  cases hr : resolveKey cs with
  | none => rw [hr] at h; exact Option.noConfusion h
  | some p =>
    rw [hr] at h
    obtain ⟨w, tie⟩ := p
    have h' : some (fnameVal w.filename) = some v := h
    exact ⟨w, resolveKey_winner_mem hr, (Option.some.inj h').symm⟩

/-- Witness for C7 at a concrete single-candidate input. -/
theorem C7_witness :
    (objGet (resolveAll (collectConflicts
        [⟨some "circle", "circle", [], "⭕", "", [], mkRat 7 10⟩])).1 "⭕" =
      some (.jstr "circle")) ∧
    ∃ cs, objGet (collectConflicts
        [⟨some "circle", "circle", [], "⭕", "", [], mkRat 7 10⟩]) "⭕" = some cs ∧
      ∃ c, c ∈ cs ∧ JValue.jstr "circle" = fnameVal c.filename :=
  ⟨rfl, C7_coverage_before_overrides _ "⭕" _ rfl⟩

/-! ### Claim C5 -/

/-- C5 counterexample: a proposal lacking its asset identifier is collected
without any error — the collection pass performs no validation — and
resolution still produces a mapping for its key, with an undefined value.
Nothing aborts. -/
theorem C5_counterexample :
    collectConflicts [⟨none, "broken", [], "x", "", [], 1⟩] =
      [("x", [⟨none, 1, true, none⟩])] ∧
    objGet (resolveAll (collectConflicts [⟨none, "broken", [], "x", "", [], 1⟩])).1 "x" =
      some .jundefined :=
  ⟨rfl, rfl⟩

/-- C5 amended: the collection pass does not check the asset identifier at
all: a proposal lacking its `filename` is collected like any other, and the
resolved mapping maps its label key to the undefined identifier. -/
theorem C5_no_missing_filename_check (a : Assignment)
    (hf : a.filename = none) (he : a.emoji ≠ "") (hs : a.subEmoji = "") :
    objGet (collectConflicts [a]) a.emoji = some [⟨none, a.similarity, true, none⟩] ∧
    objGet (resolveAll (collectConflicts [a])).1 a.emoji = some .jundefined := by
  have hd : deriveMappings a = [(a.emoji, true, none)] := by
    unfold deriveMappings
    rw [if_pos he, if_neg (by simp [hs])]
    simp
  have hc : collectConflicts [a] = [(a.emoji, [⟨none, a.similarity, true, none⟩])] := by
    unfold collectConflicts
    rw [List.foldl_cons, List.foldl_nil, hd, List.foldl_cons, List.foldl_nil]
    unfold pushCandidate
    simp [hf]
  refine ⟨?_, ?_⟩
  · rw [hc, objGet_cons, if_pos rfl]
  · rw [hc, resolveAll_eq_foldl, List.foldl_cons, List.foldl_nil]
    show objGet (resolveStep ([], [])
      (a.emoji, [⟨none, a.similarity, true, none⟩])).1 a.emoji = _
    unfold resolveStep
    rw [resolveKey_short (by simp)]
    show objGet (objSet [] a.emoji (fnameVal none)) a.emoji = _
    rw [objGet_objSet_self]
    rfl

/-- Witness for C5 at a concrete filename-less proposal. -/
theorem C5_witness :
    ((⟨none, "broken", [], "x", "", [], 1⟩ : Assignment).filename = none ∧
     (⟨none, "broken", [], "x", "", [], 1⟩ : Assignment).emoji ≠ "" ∧
     (⟨none, "broken", [], "x", "", [], 1⟩ : Assignment).subEmoji = "") ∧
    objGet (collectConflicts [⟨none, "broken", [], "x", "", [], 1⟩]) "x" =
      some [⟨none, 1, true, none⟩] ∧
    objGet (resolveAll (collectConflicts [⟨none, "broken", [], "x", "", [], 1⟩])).1 "x" =
      some .jundefined :=
  ⟨⟨rfl, by decide, rfl⟩,
    C5_no_missing_filename_check ⟨none, "broken", [], "x", "", [], 1⟩ rfl (by decide) rfl⟩

/-! ### Claim C4 -/

/-- C4 counterexample: every run stamps each artifact with its own
`new Date().toISOString()` value, so two runs over the identical input with
no override file, performed at different instants, produce different
artifact contents (the `generated` fields differ), not byte-identical ones. -/
theorem C4_counterexample :
    createEmojiToIconMapping sampleEMB sampleEM sampleEP sampleEmo sampleLC
        ⟨"2025-01-01T00:00:00.000Z", 1,
          [⟨some "circle", "circle", [], "⭕", "", [], mkRat 7 10⟩]⟩
        none "2025-01-01T00:00:00.000Z" ≠
      createEmojiToIconMapping sampleEMB sampleEM sampleEP sampleEmo sampleLC
        ⟨"2025-01-01T00:00:00.000Z", 1,
          [⟨some "circle", "circle", [], "⭕", "", [], mkRat 7 10⟩]⟩
        none "2025-01-02T00:00:00.000Z" := by
  intro h
  exact absurd (congrArg (fun o => o.emojiToIcon.generated) h) (by decide)

/-- C4 amended: determinism holds for everything except the generation
timestamps: with the timestamp fields stripped, the artifacts of two runs on
the same input with no override file are identical whatever the runs'
instants, and a run reproduces itself exactly at a fixed instant. -/
theorem C4_deterministic_up_to_timestamp
    (isEMB isEM isEP isEmo : Char → Bool) (lc : String → String → Int)
    (input : EmojiAssignments) (t1 t2 : String) :
    contentOf (createEmojiToIconMapping isEMB isEM isEP isEmo lc input none t1) =
      contentOf (createEmojiToIconMapping isEMB isEM isEP isEmo lc input none t2) ∧
    createEmojiToIconMapping isEMB isEM isEP isEmo lc input none t1 =
      createEmojiToIconMapping isEMB isEM isEP isEmo lc input none t1 :=
  ⟨rfl, rfl⟩

/-! ### Claim C8 -/

/-- C8 counterexample: a present override artifact whose ties object is not
a mapping of strings to non-empty sequences (the entry `"a"` maps to the
empty sequence) does not make the code skip application: the well-formed
entry `"b"` is still applied and changes the resolved mapping, and the
valid-format branch is taken, so no invalid-format message is logged at
all — let alone a warning. -/
theorem C8_counterexample :
    ((JValue.jobj [("ties", JValue.jobj [("a", JValue.jarr []),
        ("b", JValue.jarr [JValue.jstr "x"])])]).getProp "ties").entriesOf =
      [("a", JValue.jarr []), ("b", JValue.jarr [JValue.jstr "x"])] ∧
    (applyManualTies [("b", JValue.jstr "y")]
        (.jobj [("ties", .jobj [("a", .jarr []), ("b", .jarr [.jstr "x"])])])).1.1 =
      [("b", JValue.jstr "x")] ∧
    ([("b", JValue.jstr "x")] : List (String × JValue)) ≠ [("b", JValue.jstr "y")] ∧
    (applyManualTies [("b", JValue.jstr "y")]
        (.jobj [("ties", .jobj [("a", .jarr []), ("b", .jarr [.jstr "x"])])])).2 = true := by
  refine ⟨rfl, rfl, ?_, rfl⟩
  decide

/-- C8 amended: only a missing, falsy, or non-object `ties` field makes the
code skip the override application entirely (with an info-level message and
without failing the run); an entry whose value is not a non-empty array is
skipped individually while the remaining well-formed entries still apply. -/
theorem C8_invalid_format_behavior (m : List (String × JValue)) (file : JValue)
    (acc : List (String × JValue) × Nat) (k : String) (v : JValue) :
    (((file.getProp "ties").truthy && (file.getProp "ties").isObjType) = false →
      applyManualTies m file = ((m, 0), false)) ∧
    (entryWinner v = none → applyOverrideEntry acc k v = acc) := by
  constructor
  · intro hv
    unfold applyManualTies
    rw [if_neg (by simp [hv])]
  · intro hw
    cases v with
    | jarr xs =>
      cases xs with
      | nil => rfl
      | cons w ws => exact absurd hw (by simp [entryWinner])
    | jundefined => rfl
    | jnull => rfl
    | jbool b => rfl
    | jnum q => rfl
    | jstr s => rfl
    | jobj fields => rfl

/-- Witness for C8 at a concrete file without a ties object and a concrete
empty-array entry. -/
theorem C8_witness :
    ((((JValue.jobj [("x", JValue.jstr "y")]).getProp "ties").truthy &&
        ((JValue.jobj [("x", JValue.jstr "y")]).getProp "ties").isObjType) = false) ∧
    applyManualTies [("k", JValue.jstr "v")] (.jobj [("x", JValue.jstr "y")]) =
      (([("k", JValue.jstr "v")], 0), false) ∧
    entryWinner (JValue.jarr []) = none ∧
    applyOverrideEntry ([("k", JValue.jstr "v")], 0) "k" (JValue.jarr []) =
      ([("k", JValue.jstr "v")], 0) :=
  ⟨by decide,
    (C8_invalid_format_behavior [("k", JValue.jstr "v")] (.jobj [("x", JValue.jstr "y")])
      ([("k", JValue.jstr "v")], 0) "k" (JValue.jarr [])).1 (by decide),
    rfl,
    (C8_invalid_format_behavior [("k", JValue.jstr "v")] (.jobj [("x", JValue.jstr "y")])
      ([("k", JValue.jstr "v")], 0) "k" (JValue.jarr [])).2 rfl⟩

/-! ### Claim C9 -/

theorem emojiKeyCompare_le_iff (cnt : String → Nat) (lc : String → String → Int)
    (a b : String) :
    emojiKeyCompare cnt lc a b ≤ 0 ↔
      (cnt a < cnt b ∨ (cnt a = cnt b ∧ lc a b ≤ 0)) := by
  unfold emojiKeyCompare
  by_cases h : cnt a ≠ cnt b
  · rw [if_pos h]
    constructor
    · intro hle
      left
      omega
    · rintro (hlt | ⟨heq, -⟩)
      · omega
      · exact absurd heq h
  · rw [if_neg h]
    push_neg at h
    constructor
    · intro hle
      exact Or.inr ⟨h, hle⟩
    · rintro (hlt | ⟨-, hle⟩)
      · omega
      · exact hle

theorem pairwise_sortByEmojiKeys (cnt : String → Nat) (lc : String → String → Int)
    (htot : ∀ a b, lc a b ≤ 0 ∨ lc b a ≤ 0)
    (htrans : ∀ a b c, lc a b ≤ 0 → lc b c ≤ 0 → lc a c ≤ 0)
    (keys : List String) :
    (List.insertionSort (fun a b => emojiKeyCompare cnt lc a b ≤ 0) keys).Pairwise
      (fun a b => cnt a < cnt b ∨ (cnt a = cnt b ∧ lc a b ≤ 0)) := by
  haveI h1 : IsTotal String (fun a b => emojiKeyCompare cnt lc a b ≤ 0) := by
    constructor
    intro a b
    rcases Nat.lt_trichotomy (cnt a) (cnt b) with hlt | heq | hgt
    · exact Or.inl ((emojiKeyCompare_le_iff cnt lc a b).mpr (Or.inl hlt))
    · rcases htot a b with hab | hba
      · exact Or.inl ((emojiKeyCompare_le_iff cnt lc a b).mpr (Or.inr ⟨heq, hab⟩))
      · exact Or.inr ((emojiKeyCompare_le_iff cnt lc b a).mpr (Or.inr ⟨heq.symm, hba⟩))
    · exact Or.inr ((emojiKeyCompare_le_iff cnt lc b a).mpr (Or.inl hgt))
  haveI h2 : IsTrans String (fun a b => emojiKeyCompare cnt lc a b ≤ 0) := by
    constructor
    intro a b c hab hbc
    rw [emojiKeyCompare_le_iff] at hab hbc
    rw [emojiKeyCompare_le_iff]
    rcases hab with hlt1 | ⟨heq1, hle1⟩ <;> rcases hbc with hlt2 | ⟨heq2, hle2⟩
    · exact Or.inl (lt_trans hlt1 hlt2)
    · exact Or.inl (heq2 ▸ hlt1)
    · exact Or.inl (heq1 ▸ hlt2)
    · exact Or.inr ⟨heq1.trans heq2, htrans a b c hle1 hle2⟩
  exact (List.sorted_insertionSort _ keys).imp
    (fun hab => (emojiKeyCompare_le_iff cnt lc _ _).mp hab)

theorem map_fst_filterMap_getPair {α : Type _} (g : String → Option α) :
    ∀ l : List String,
      ((l.filterMap (fun k => (g k).map (fun v => (k, v)))).map Prod.fst).Sublist l
  | [] => List.Sublist.refl []
  | k :: t => by
    rw [List.filterMap_cons]
    cases hg : g k with
    | none => exact (map_fst_filterMap_getPair g t).cons k
    | some v =>
      show List.Sublist
        (((k, v) :: t.filterMap (fun k => (g k).map (fun v => (k, v)))).map Prod.fst) (k :: t)
      rw [List.map_cons]
      exact (map_fst_filterMap_getPair g t).cons₂ k

/-- C9: in the by-label output view the keys are ordered by the number of
emoji regex units ascending, then by locale comparison; the unit count
treats a modifier base followed by a modifier, and an emoji followed by the
variation selector, as single units.  The Unicode character classes and the
locale comparison are environment inputs; the locale comparison is assumed
total and transitive, which `String.prototype.localeCompare` satisfies. -/
theorem C9_by_label_sort
    (isEMB isEM isEP isEmo : Char → Bool) (lc : String → String → Int)
    (htot : ∀ a b, lc a b ≤ 0 ∨ lc b a ≤ 0)
    (htrans : ∀ a b c, lc a b ≤ 0 → lc b c ≤ 0 → lc a c ≤ 0)
    (input : EmojiAssignments) (overrideFile : Option JValue) (now : String) :
    (((createEmojiToIconMapping isEMB isEM isEP isEmo lc input
        overrideFile now).emojiToIconByEmoji.mappings).map Prod.fst).Pairwise (fun a b =>
          countEmojiUnits isEMB isEM isEP isEmo a.data <
              countEmojiUnits isEMB isEM isEP isEmo b.data ∨
            (countEmojiUnits isEMB isEM isEP isEmo a.data =
                countEmojiUnits isEMB isEM isEP isEmo b.data ∧ lc a b ≤ 0)) ∧
    (∀ b m : Char, isEMB b = true → isEM m = true →
      countEmojiUnits isEMB isEM isEP isEmo [b, m] = 1) ∧
    (∀ e : Char, (isEmo e = true ∨ isEMB e = true ∨ isEP e = true) →
      isEMB '\uFE0F' = false → isEP '\uFE0F' = false →
      countEmojiUnits isEMB isEM isEP isEmo [e, '\uFE0F'] = 1) := by
  refine ⟨?_, ?_, ?_⟩
  · have hmap : (createEmojiToIconMapping isEMB isEM isEP isEmo lc input
        overrideFile now).emojiToIconByEmoji.mappings =
        (List.insertionSort
          (fun a b => emojiKeyCompare
            (fun s : String => countEmojiUnits isEMB isEM isEP isEmo s.data) lc a b ≤ 0)
          (objKeys (overridesStage
            (resolveAll (collectConflicts input.assignments)).1 overrideFile).1)).filterMap
          (fun k => (objGet (overridesStage
            (resolveAll (collectConflicts input.assignments)).1 overrideFile).1 k).map
            (fun v => (k, v))) := rfl
    rw [hmap]
    have hpw := pairwise_sortByEmojiKeys
      (fun s : String => countEmojiUnits isEMB isEM isEP isEmo s.data) lc htot htrans
      (objKeys (overridesStage
        (resolveAll (collectConflicts input.assignments)).1 overrideFile).1)
    have hsub := map_fst_filterMap_getPair
      (fun k => objGet (overridesStage
        (resolveAll (collectConflicts input.assignments)).1 overrideFile).1 k)
      (List.insertionSort
        (fun a b => emojiKeyCompare
          (fun s : String => countEmojiUnits isEMB isEM isEP isEmo s.data) lc a b ≤ 0)
        (objKeys (overridesStage
          (resolveAll (collectConflicts input.assignments)).1 overrideFile).1))
    exact hpw.sublist hsub
  · intro b m hb hm
    simp [countEmojiUnits, hb, hm]
  · intro e he hv1 hv2
    by_cases hEMB : isEMB e = true
    · by_cases hEM : isEM '\uFE0F' = true
      · simp [countEmojiUnits, hEMB, hEM]
      · simp [countEmojiUnits, hEMB, hEM, hv1, hv2]
    · by_cases hEP : isEP e = true
      · simp [countEmojiUnits, hEMB, hEP, hv1, hv2]
      · have hEmo : isEmo e = true := by
          rcases he with h | h | h
          · exact h
          · exact absurd h hEMB
          · exact absurd h hEP
        simp [countEmojiUnits, hEMB, hEP, hEmo]

/-- Witness for C9 at concrete character classes, locale comparison, and
input. -/
theorem C9_witness :
    (((createEmojiToIconMapping sampleEMB sampleEM sampleEP sampleEmo sampleLC
        ⟨"g", 1, [⟨some "circle", "circle", [], "⭕", "", [], mkRat 7 10⟩]⟩ none
        "t").emojiToIconByEmoji.mappings).map Prod.fst).Pairwise (fun a b =>
          countEmojiUnits sampleEMB sampleEM sampleEP sampleEmo a.data <
              countEmojiUnits sampleEMB sampleEM sampleEP sampleEmo b.data ∨
            (countEmojiUnits sampleEMB sampleEM sampleEP sampleEmo a.data =
                countEmojiUnits sampleEMB sampleEM sampleEP sampleEmo b.data ∧
              sampleLC a b ≤ 0)) ∧
    countEmojiUnits sampleEMB sampleEM sampleEP sampleEmo ['a', 'b'] = 1 ∧
    countEmojiUnits sampleEMB sampleEM sampleEP sampleEmo ['c', '\uFE0F'] = 1 :=
  ⟨(C9_by_label_sort sampleEMB sampleEM sampleEP sampleEmo sampleLC
      (fun _ _ => Or.inl (le_refl 0)) (fun _ _ _ _ _ => le_refl 0)
      ⟨"g", 1, [⟨some "circle", "circle", [], "⭕", "", [], mkRat 7 10⟩]⟩ none "t").1,
   (C9_by_label_sort sampleEMB sampleEM sampleEP sampleEmo sampleLC
      (fun _ _ => Or.inl (le_refl 0)) (fun _ _ _ _ _ => le_refl 0)
      ⟨"g", 1, [⟨some "circle", "circle", [], "⭕", "", [], mkRat 7 10⟩]⟩ none "t").2.1
      'a' 'b' (by decide) (by decide),
   (C9_by_label_sort sampleEMB sampleEM sampleEP sampleEmo sampleLC
      (fun _ _ => Or.inl (le_refl 0)) (fun _ _ _ _ _ => le_refl 0)
      ⟨"g", 1, [⟨some "circle", "circle", [], "⭕", "", [], mkRat 7 10⟩]⟩ none "t").2.2
      'c' (Or.inl (by decide)) (by decide) (by decide)⟩

end EmojiMap
